import Mathlib

/-!
# Verification of the Jmail authentication core

A shallow embedding, in Lean 4, of the authentication subsystem of the Jmail
application (`jmail/auth.py` together with the store model of
`jmail/database.py`): URL-safe base64 framing, SHA-256 / HMAC / PBKDF2,
password hashing and verification, JWT-style token issuance and validation,
email validation, and the register/login orchestration.  Bytes are modelled
as `Nat` (always `< 256` where produced by the code), byte strings as
`List Nat`, and text as `List Char`.  Randomness (`os.urandom`) and the clock
(`time.time()`) are passed as explicit parameters.  Fallible Python code
(raising `ValueError` / `binascii.Error` / `json.JSONDecodeError`) is
modelled with `Except`.
-/

set_option maxRecDepth 100000

namespace Jmail

/-- Python's `str.split(sep)` for a one-character separator: splitting the
empty string yields `[""]`, and `n` separators yield `n + 1` fields. -/
def splitOnChar (sep : Char) : List Char → List (List Char)
  | [] => [[]]
  | c :: cs =>
    if c = sep then [] :: splitOnChar sep cs
    else
      match splitOnChar sep cs with
      | [] => [[c]]
      | p :: ps => (c :: p) :: ps

theorem splitOnChar_ne_nil (sep : Char) (cs : List Char) :
    splitOnChar sep cs ≠ [] := by
  induction cs with
  | nil => simp [splitOnChar]
  | cons c cs ih =>
    simp only [splitOnChar]
    split
    · simp
    · split
      · simp
      · simp

theorem splitOnChar_of_not_mem (sep : Char) (cs : List Char) (h : sep ∉ cs) :
    splitOnChar sep cs = [cs] := by
  induction cs with
  | nil => rfl
  | cons c cs ih =>
    simp only [List.mem_cons, not_or] at h
    have hcs : ¬ c = sep := fun hc => h.1 hc.symm
    simp only [splitOnChar, if_neg hcs, ih h.2]

theorem splitOnChar_append (sep : Char) (xs ys : List Char) (h : sep ∉ xs) :
    splitOnChar sep (xs ++ sep :: ys) = xs :: splitOnChar sep ys := by
  induction xs with
  | nil => simp [splitOnChar]
  | cons c cs ih =>
    simp only [List.mem_cons, not_or] at h
    have hcs : ¬ c = sep := fun hc => h.1 hc.symm
    simp only [List.cons_append, splitOnChar, if_neg hcs, List.append_eq]
    rw [ih h.2]

/-- The token split used by `decode_token`: a three-part token splits back
into its parts when none of them contains a dot. -/
theorem splitOnChar_three (sep : Char) (a b c : List Char)
    (ha : sep ∉ a) (hb : sep ∉ b) (hc : sep ∉ c) :
    splitOnChar sep (a ++ sep :: (b ++ sep :: c)) = [a, b, c] := by
  rw [splitOnChar_append sep a _ ha, splitOnChar_append sep b _ hb,
    splitOnChar_of_not_mem sep c hc]

/-! ## URL-safe base64, as the code uses it

`_b64encode` is `base64.urlsafe_b64encode` with the trailing `=` padding
stripped; `_b64decode` re-appends `"=" * (-len(data) % 4)` and calls
`base64.urlsafe_b64decode`, which translates `-`/`_` to `+`/`/` and runs
CPython's non-strict `binascii.a2b_base64`: characters outside the alphabet
are silently discarded, a `=` closes the stream once at least two data
characters stand in the current quad, and at end of input a leftover quad of
one data character raises the "1 more than a multiple of 4" error while a
leftover quad of two or three raises "Incorrect padding". -/

/-- The URL-safe base64 alphabet used by `base64.urlsafe_b64encode`. -/
def b64chars : List Char :=
  String.toList "ABCDEFGHIJKLMNOPQRSTUVWXYZabcdefghijklmnopqrstuvwxyz0123456789-_"

/-- The character standing for a 6-bit value in an encoded string. -/
def b64char (n : Nat) : Char := b64chars.getD n 'A'

/-- The 6-bit value of a character under `urlsafe_b64decode`, `none` when the
character is outside the alphabet.  The urlsafe variant only *translates*
`-`/`_` to `+`/`/` before decoding, so `+` and `/` themselves also remain
valid input characters. -/
def b64val (c : Char) : Option Nat :=
  if 'A' ≤ c ∧ c ≤ 'Z' then some (c.toNat - 65)
  else if 'a' ≤ c ∧ c ≤ 'z' then some (c.toNat - 97 + 26)
  else if '0' ≤ c ∧ c ≤ '9' then some (c.toNat - 48 + 52)
  else if c = '-' ∨ c = '+' then some 62
  else if c = '_' ∨ c = '/' then some 63
  else none

/-- Errors raised by `binascii.a2b_base64` (as `binascii.Error`, a subclass
of `ValueError`): the "number of data characters cannot be 1 more than a
multiple of 4" error and the "Incorrect padding" error. -/
inductive B64Error where
  | oneMore : B64Error
  | incorrectPadding : B64Error
deriving DecidableEq, Repr

/-- CPython's non-strict `binascii.a2b_base64` loop (`Modules/binascii.c`):
`quad` is the position inside the current 4-character group, `left` the
pending bits, `pads` the count of consecutive `=` seen at quad position ≥ 2.
A `=` at quad position < 2 is ignored; a `=` completing `quad + pads ≥ 4`
ends the stream successfully; characters outside the alphabet are skipped;
a data character resets `pads`.  At end of input a leftover quad position of
1 is the `oneMore` error and 2 or 3 the `incorrectPadding` error.  The C
shifts and masks on 6-bit groups are written in equivalent div/mod
arithmetic: `w << k` is `w * 2 ^ k`, `w >> k` is `w / 2 ^ k`, `w & (2^k - 1)`
is `w % 2 ^ k`, and `|` on disjoint bit ranges is `+`. -/
def a2bLoop : List Char → Nat → Nat → Nat → List Nat → Except B64Error (List Nat)
  | [], quad, _, _, acc =>
    if quad = 0 then .ok acc
    else if quad = 1 then .error .oneMore
    else .error .incorrectPadding
  | c :: cs, quad, left, pads, acc =>
    if c = '=' then
      if 2 ≤ quad ∧ 4 ≤ quad + (pads + 1) then .ok acc
      else if 2 ≤ quad then a2bLoop cs quad left (pads + 1) acc
      else a2bLoop cs quad left pads acc
    else
      match b64val c with
      | none => a2bLoop cs quad left pads acc
      | some v =>
        match quad with
        | 0 => a2bLoop cs 1 v 0 acc
        | 1 => a2bLoop cs 2 (v % 16) 0 (acc ++ [left * 4 + v / 16])
        | 2 => a2bLoop cs 3 (v % 4) 0 (acc ++ [left * 16 + v / 4])
        | _ => a2bLoop cs 0 0 0 (acc ++ [left * 64 + v])

/-- The number of `=` characters `_b64decode` re-appends:
`"=" * (-len(data) % 4)`. -/
def padLen (n : Nat) : Nat := (4 - n % 4) % 4

/-- The `_b64decode` helper of `jmail/auth.py`: re-append `"=" * (-len % 4)`
and decode. -/
def b64decode (s : List Char) : Except B64Error (List Nat) :=
  a2bLoop (s ++ List.replicate (padLen s.length) '=') 0 0 0 []

/-- The `_b64encode` helper of `jmail/auth.py`: `urlsafe_b64encode` with the
trailing padding already stripped, so 3 input bytes give 4 characters, a
2-byte tail gives 3 characters and a 1-byte tail gives 2.  As in `a2bLoop`,
the bit operations of the encoder are written in div/mod arithmetic. -/
def b64encode : List Nat → List Char
  | [] => []
  | [x] => [b64char (x / 4), b64char ((x % 4) * 16)]
  | [x, y] =>
    [b64char (x / 4), b64char ((x % 4) * 16 + y / 16), b64char ((y % 16) * 4)]
  | x :: y :: z :: rest =>
    b64char (x / 4) :: b64char ((x % 4) * 16 + y / 16) ::
      b64char ((y % 16) * 4 + z / 64) :: b64char (z % 64) :: b64encode rest

theorem b64val_b64char : ∀ v < 64, b64val (b64char v) = some v := by decide

theorem b64char_ne_eq : ∀ v < 64,
    ¬ b64char v = '=' ∧ ¬ b64char v = '.' ∧ ¬ b64char v = '$' := by decide

/-- One data character advances the loop from quad position 0. -/
theorem a2bLoop_data0 (v : Nat) (hv : v < 64) (cs : List Char)
    (left pads : Nat) (acc : List Nat) :
    a2bLoop (b64char v :: cs) 0 left pads acc = a2bLoop cs 1 v 0 acc := by
  simp only [a2bLoop, if_neg (b64char_ne_eq v hv).1, b64val_b64char v hv]

/-- One data character advances the loop from quad position 1, emitting the
first byte of the quad. -/
theorem a2bLoop_data1 (v : Nat) (hv : v < 64) (cs : List Char)
    (left pads : Nat) (acc : List Nat) :
    a2bLoop (b64char v :: cs) 1 left pads acc =
      a2bLoop cs 2 (v % 16) 0 (acc ++ [left * 4 + v / 16]) := by
  simp only [a2bLoop, if_neg (b64char_ne_eq v hv).1, b64val_b64char v hv]

/-- One data character advances the loop from quad position 2, emitting the
second byte of the quad. -/
theorem a2bLoop_data2 (v : Nat) (hv : v < 64) (cs : List Char)
    (left pads : Nat) (acc : List Nat) :
    a2bLoop (b64char v :: cs) 2 left pads acc =
      a2bLoop cs 3 (v % 4) 0 (acc ++ [left * 16 + v / 4]) := by
  simp only [a2bLoop, if_neg (b64char_ne_eq v hv).1, b64val_b64char v hv]

/-- One data character advances the loop from quad position 3, emitting the
third byte of the quad. -/
theorem a2bLoop_data3 (v : Nat) (hv : v < 64) (cs : List Char)
    (left pads : Nat) (acc : List Nat) :
    a2bLoop (b64char v :: cs) 3 left pads acc =
      a2bLoop cs 0 0 0 (acc ++ [left * 64 + v]) := by
  simp only [a2bLoop, if_neg (b64char_ne_eq v hv).1, b64val_b64char v hv]

/-- A `=` that brings `quad + pads` to 4 ends decoding successfully. -/
theorem a2bLoop_pad_done (cs : List Char) (quad left pads : Nat)
    (acc : List Nat) (h2 : 2 ≤ quad) (h4 : 4 ≤ quad + (pads + 1)) :
    a2bLoop ('=' :: cs) quad left pads acc = .ok acc := by
  simp only [a2bLoop, if_pos (And.intro h2 h4)]
  simp

/-- A `=` at quad position ≥ 2 that does not yet reach 4 counts a pad. -/
theorem a2bLoop_pad_cont (cs : List Char) (quad left pads : Nat)
    (acc : List Nat) (h2 : 2 ≤ quad) (h4 : ¬ 4 ≤ quad + (pads + 1)) :
    a2bLoop ('=' :: cs) quad left pads acc =
      a2bLoop cs quad left (pads + 1) acc := by
  have hn : ¬ (2 ≤ quad ∧ 4 ≤ quad + (pads + 1)) := fun h => h4 h.2
  simp only [a2bLoop, if_neg hn, if_pos h2]
  simp

/-- A `=` at quad position < 2 is ignored in non-strict mode. -/
theorem a2bLoop_pad_skip (cs : List Char) (quad left pads : Nat)
    (acc : List Nat) (h2 : ¬ 2 ≤ quad) :
    a2bLoop ('=' :: cs) quad left pads acc = a2bLoop cs quad left pads acc := by
  have hn : ¬ (2 ≤ quad ∧ 4 ≤ quad + (pads + 1)) := fun h => h2 h.1
  simp only [a2bLoop, if_neg hn, if_neg h2]
  simp

theorem b64encode_length_cons (x y z : Nat) (rest : List Nat) :
    (b64encode (x :: y :: z :: rest)).length = 4 + (b64encode rest).length := by
  simp only [b64encode, List.length_cons]
  omega

/-- Decoding the encoder's output together with the reconstructed padding
returns exactly the encoded bytes, appended to the accumulator, from any
starting leftover bits and pad count at quad position 0. -/
theorem a2bLoop_encode : ∀ (b : List Nat), (∀ x ∈ b, x < 256) →
    ∀ (left pads : Nat) (acc : List Nat),
    a2bLoop (b64encode b ++ List.replicate (padLen (b64encode b).length) '=')
      0 left pads acc = .ok (acc ++ b)
  | [], _, left, pads, acc => by
    simp [b64encode, padLen, a2bLoop]
  | [x], hb, left, pads, acc => by
    have hx : x < 256 := hb x (by simp)
    have h1 : x / 4 < 64 := by omega
    have h2 : (x % 4) * 16 < 64 := by omega
    show a2bLoop (b64char (x / 4) :: b64char ((x % 4) * 16) :: '=' :: '=' :: [])
        0 left pads acc = .ok (acc ++ [x])
    rw [a2bLoop_data0 _ h1, a2bLoop_data1 _ h2,
      a2bLoop_pad_cont _ _ _ _ _ (by omega) (by omega),
      a2bLoop_pad_done _ _ _ _ _ (by omega) (by omega)]
    have e1 : x / 4 * 4 + (x % 4) * 16 / 16 = x := by omega
    rw [e1]
  | [x, y], hb, left, pads, acc => by
    have hx : x < 256 := hb x (by simp)
    have hy : y < 256 := hb y (by simp)
    have h1 : x / 4 < 64 := by omega
    have h2 : (x % 4) * 16 + y / 16 < 64 := by omega
    have h3 : (y % 16) * 4 < 64 := by omega
    show a2bLoop (b64char (x / 4) :: b64char ((x % 4) * 16 + y / 16) ::
        b64char ((y % 16) * 4) :: '=' :: []) 0 left pads acc = .ok (acc ++ [x, y])
    rw [a2bLoop_data0 _ h1, a2bLoop_data1 _ h2, a2bLoop_data2 _ h3,
      a2bLoop_pad_done _ _ _ _ _ (by omega) (by omega)]
    have e1 : x / 4 * 4 + ((x % 4) * 16 + y / 16) / 16 = x := by omega
    have e2 : ((x % 4) * 16 + y / 16) % 16 * 16 + (y % 16) * 4 / 4 = y := by omega
    rw [e1, e2]
    simp
  | x :: y :: z :: rest, hb, left, pads, acc => by
    have hx : x < 256 := hb x (by simp)
    have hy : y < 256 := hb y (by simp)
    have hz : z < 256 := hb z (by simp)
    have h1 : x / 4 < 64 := by omega
    have h2 : (x % 4) * 16 + y / 16 < 64 := by omega
    have h3 : (y % 16) * 4 + z / 64 < 64 := by omega
    have h4 : z % 64 < 64 := by omega
    have hpl : padLen (b64encode (x :: y :: z :: rest)).length =
        padLen (b64encode rest).length := by
      rw [b64encode_length_cons]
      simp [padLen, Nat.add_mod]
    show a2bLoop (b64char (x / 4) :: b64char ((x % 4) * 16 + y / 16) ::
        b64char ((y % 16) * 4 + z / 64) :: b64char (z % 64) ::
        (b64encode rest ++
          List.replicate (padLen (b64encode (x :: y :: z :: rest)).length) '='))
        0 left pads acc = .ok (acc ++ (x :: y :: z :: rest))
    rw [hpl, a2bLoop_data0 _ h1, a2bLoop_data1 _ h2, a2bLoop_data2 _ h3,
      a2bLoop_data3 _ h4]
    have e1 : x / 4 * 4 + ((x % 4) * 16 + y / 16) / 16 = x := by omega
    have e2 : ((x % 4) * 16 + y / 16) % 16 * 16 + ((y % 16) * 4 + z / 64) / 4
        = y := by omega
    have e3 : ((y % 16) * 4 + z / 64) % 4 * 64 + z % 64 = z := by omega
    rw [e1, e2, e3]
    rw [a2bLoop_encode rest (fun a ha => hb a (by simp [ha])) 0 0
      (acc ++ [x] ++ [y] ++ [z])]
    simp

/-- Round trip at the `_b64decode ∘ _b64encode` level: decoding an encoded
byte string returns it unchanged. -/
theorem b64decode_b64encode (b : List Nat) (hb : ∀ x ∈ b, x < 256) :
    b64decode (b64encode b) = .ok b := by
  have h := a2bLoop_encode b hb 0 0 []
  simpa [b64decode, padLen] using h

/-- Every character of an encoded string is an alphabet character for a
6-bit value. -/
theorem b64encode_mem (b : List Nat) (hb : ∀ x ∈ b, x < 256) :
    ∀ c ∈ b64encode b, ∃ v, v < 64 ∧ c = b64char v := by
  induction b using b64encode.induct with
  | case1 => simp [b64encode]
  | case2 x =>
    have hx : x < 256 := hb x (by simp)
    intro c hc
    simp only [b64encode, List.mem_cons, List.mem_singleton] at hc
    rcases hc with rfl | hc
    · exact ⟨x / 4, by omega, rfl⟩
    · simp only [List.mem_cons, List.not_mem_nil, or_false] at hc
      exact hc ▸ ⟨(x % 4) * 16, by omega, rfl⟩
  | case3 x y =>
    have hx : x < 256 := hb x (by simp)
    have hy : y < 256 := hb y (by simp)
    intro c hc
    simp only [b64encode, List.mem_cons, List.not_mem_nil, or_false] at hc
    rcases hc with rfl | rfl | rfl
    · exact ⟨x / 4, by omega, rfl⟩
    · exact ⟨(x % 4) * 16 + y / 16, by omega, rfl⟩
    · exact ⟨(y % 16) * 4, by omega, rfl⟩
  | case4 x y z rest ih =>
    have hx : x < 256 := hb x (by simp)
    have hy : y < 256 := hb y (by simp)
    have hz : z < 256 := hb z (by simp)
    intro c hc
    simp only [b64encode, List.mem_cons] at hc
    rcases hc with rfl | rfl | rfl | rfl | hc
    · exact ⟨x / 4, by omega, rfl⟩
    · exact ⟨(x % 4) * 16 + y / 16, by omega, rfl⟩
    · exact ⟨(y % 16) * 4 + z / 64, by omega, rfl⟩
    · exact ⟨z % 64, by omega, rfl⟩
    · exact ih (fun a ha => hb a (by simp [ha])) c hc

/-- Encoded strings never contain a dot: the token framing characters stay
outside the payload segments. -/
theorem b64encode_no_dot (b : List Nat) (hb : ∀ x ∈ b, x < 256) :
    '.' ∉ b64encode b := by
  intro hmem
  obtain ⟨v, hv, hc⟩ := b64encode_mem b hb _ hmem
  exact (b64char_ne_eq v hv).2.1 hc.symm

/-- Encoded strings never contain the `$` credential delimiter. -/
theorem b64encode_no_dollar (b : List Nat) (hb : ∀ x ∈ b, x < 256) :
    '$' ∉ b64encode b := by
  intro hmem
  obtain ⟨v, hv, hc⟩ := b64encode_mem b hb _ hmem
  exact (b64char_ne_eq v hv).2.2 hc.symm

/-- The encoder is injective on byte strings, because decoding undoes it. -/
theorem b64encode_injective (b1 b2 : List Nat) (h1 : ∀ x ∈ b1, x < 256)
    (h2 : ∀ x ∈ b2, x < 256) (he : b64encode b1 = b64encode b2) : b1 = b2 := by
  have := b64decode_b64encode b1 h1
  rw [he, b64decode_b64encode b2 h2] at this
  exact (Except.ok.injEq _ _ ▸ this).symm

/-! ## SHA-256, HMAC-SHA256 and PBKDF2-HMAC-SHA256

The hash functions the code pulls in from `hashlib` and `hmac`, embedded
concretely (FIPS 180-4).  Machine words are `Nat` reduced mod `2 ^ 32` by
`w32`; shifts are div/mod arithmetic as in the codec; XOR, AND stay the `Nat`
bitwise operations, and 32-bit complement is `4294967295 - x`. -/

/-- Truncation to a 32-bit word. -/
def w32 (x : Nat) : Nat := x % 4294967296

/-- Right rotation of a 32-bit word by `n` bits. -/
def rotr (n x : Nat) : Nat := x / 2 ^ n + x % 2 ^ n * 2 ^ (32 - n)

/-- SHA-256 small sigma 0. -/
def ssig0 (x : Nat) : Nat := rotr 7 x ^^^ rotr 18 x ^^^ x / 2 ^ 3

/-- SHA-256 small sigma 1. -/
def ssig1 (x : Nat) : Nat := rotr 17 x ^^^ rotr 19 x ^^^ x / 2 ^ 10

/-- SHA-256 big sigma 0. -/
def bsig0 (x : Nat) : Nat := rotr 2 x ^^^ rotr 13 x ^^^ rotr 22 x

/-- SHA-256 big sigma 1. -/
def bsig1 (x : Nat) : Nat := rotr 6 x ^^^ rotr 11 x ^^^ rotr 25 x

/-- The 64 SHA-256 round constants (FIPS 180-4, in decimal). -/
def shaK : List Nat :=
  [1116352408, 1899447441, 3049323471, 3921009573,
   961987163, 1508970993, 2453635748, 2870763221, 3624381080, 310598401,
   607225278, 1426881987, 1925078388, 2162078206, 2614888103, 3248222580,
   3835390401, 4022224774, 264347078, 604807628, 770255983, 1249150122,
   1555081692, 1996064986, 2554220882, 2821834349, 2952996808, 3210313671,
   3336571891, 3584528711, 113926993, 338241895, 666307205, 773529912,
   1294757372, 1396182291, 1695183700, 1986661051, 2177026350, 2456956037,
   2730485921, 2820302411, 3259730800, 3345764771, 3516065817, 3600352804,
   4094571909, 275423344, 430227734, 506948616, 659060556, 883997877,
   958139571, 1322822218, 1537002063, 1747873779, 1955562222, 2024104815,
   2227730452, 2361852424, 2428436474, 2756734187, 3204031479, 3329325298]

/-- The SHA-256 initial hash value (FIPS 180-4, in decimal). -/
def shaH0 : List Nat :=
  [1779033703, 3144134277, 1013904242, 2773480762,
   1359893119, 2600822924, 528734635, 1541459225]

/-- Big-endian 32-bit words from a byte string. -/
def toWords : List Nat → List Nat
  | b0 :: b1 :: b2 :: b3 :: rest =>
    (((b0 * 256 + b1) * 256 + b2) * 256 + b3) :: toWords rest
  | _ => []

/-- Extend a 16-word message schedule by `n` more words. -/
def extendW : Nat → List Nat → List Nat
  | 0, ws => ws
  | n + 1, ws =>
    extendW n (ws ++ [w32 (ssig1 (ws.getD (ws.length - 2) 0) +
      ws.getD (ws.length - 7) 0 + ssig0 (ws.getD (ws.length - 15) 0) +
      ws.getD (ws.length - 16) 0)])

/-- One SHA-256 compression round on the eight working words. -/
def shaRound (st : List Nat) (kw : Nat × Nat) : List Nat :=
  match st with
  | [a, b, c, d, e, f, g, h] =>
    let ch := (e &&& f) ^^^ ((4294967295 - e) &&& g)
    let maj := (a &&& b) ^^^ (a &&& c) ^^^ (b &&& c)
    let t1 := w32 (h + bsig1 e + ch + kw.1 + kw.2)
    let t2 := w32 (bsig0 a + maj)
    [w32 (t1 + t2), a, b, c, w32 (d + t1), e, f, g]
  | st => st

/-- SHA-256 compression of one 64-byte block into the running state. -/
def shaCompress (st : List Nat) (block : List Nat) : List Nat :=
  let ws := extendW 48 (toWords block)
  let stf := (shaK.zip ws).foldl shaRound st
  List.zipWith (fun a b => w32 (a + b)) st stf

/-- Compress `n` consecutive 64-byte blocks of `bytes` into the state. -/
def shaBlocks : Nat → List Nat → List Nat → List Nat
  | 0, st, _ => st
  | n + 1, st, bytes => shaBlocks n (shaCompress st (bytes.take 64)) (bytes.drop 64)

/-- SHA-256 message padding: a `0x80` byte, zeros to 56 mod 64, and the
bit length as a 64-bit big-endian integer. -/
def shaPad (msg : List Nat) : List Nat :=
  let L := msg.length
  let k := (119 - L % 64) % 64
  let bits := L * 8
  msg ++ 128 :: List.replicate k 0 ++
    [bits / 2 ^ 56 % 256, bits / 2 ^ 48 % 256, bits / 2 ^ 40 % 256,
     bits / 2 ^ 32 % 256, bits / 2 ^ 24 % 256, bits / 2 ^ 16 % 256,
     bits / 2 ^ 8 % 256, bits % 256]

/-- The four big-endian bytes of a 32-bit word. -/
def wordBytes (w : Nat) : List Nat :=
  [w / 2 ^ 24 % 256, w / 2 ^ 16 % 256, w / 2 ^ 8 % 256, w % 256]

/-- SHA-256 of a byte string (`hashlib.sha256(...).digest()`): the padded
message is a whole number of 64-byte blocks. -/
def sha256 (msg : List Nat) : List Nat :=
  let padded := shaPad msg
  ((shaBlocks (padded.length / 64) shaH0 padded).map wordBytes).flatten

/-- Every byte of a SHA-256 digest is below 256. -/
theorem sha256_lt (msg : List Nat) : ∀ x ∈ sha256 msg, x < 256 := by
  intro x hx
  simp only [sha256, List.mem_flatten, List.mem_map] at hx
  obtain ⟨l, ⟨w, _, rfl⟩, hxl⟩ := hx
  simp only [wordBytes, List.mem_cons, List.not_mem_nil, or_false] at hxl
  rcases hxl with rfl | rfl | rfl | rfl <;> omega

/-- HMAC-SHA256 (`hmac.new(key, msg, sha256).digest()`): the key is hashed
if longer than the 64-byte block, zero-padded to the block size, and the two
nested hashes use the `0x36`/`0x5c` padded keys. -/
def hmacSha256 (key msg : List Nat) : List Nat :=
  let k0 := if 64 < key.length then sha256 key else key
  let kb := k0 ++ List.replicate (64 - k0.length) 0
  sha256 ((kb.map (fun b => b ^^^ 92)) ++ sha256 ((kb.map (fun b => b ^^^ 54)) ++ msg))

/-- An HMAC digest is a SHA-256 digest, so its bytes are below 256. -/
theorem hmacSha256_lt (key msg : List Nat) : ∀ x ∈ hmacSha256 key msg, x < 256 :=
  sha256_lt _

/-- The iteration tail of PBKDF2's first block: repeatedly re-MAC the last
`U` value and XOR it into the accumulator. -/
def pbkdf2Loop : Nat → List Nat → List Nat → List Nat → List Nat
  | 0, _, _, acc => acc
  | n + 1, pw, u, acc =>
    let u2 := hmacSha256 pw u
    pbkdf2Loop n pw u2 (List.zipWith (fun a b => a ^^^ b) acc u2)

/-- PBKDF2-HMAC-SHA256 (`hashlib.pbkdf2_hmac("sha256", pw, salt, n)`) with
the default derived-key length of one SHA-256 block (32 bytes): the first
PBKDF2 block `F(1)`, the XOR of the iterated MACs starting from
`HMAC(pw, salt || 0x00000001)`. -/
def pbkdf2HmacSha256 (password salt : List Nat) (iterations : Nat) : List Nat :=
  let u1 := hmacSha256 password (salt ++ [0, 0, 0, 1])
  pbkdf2Loop (iterations - 1) password u1 u1

theorem zipWith_xor_lt : ∀ (l1 l2 : List Nat), (∀ a ∈ l1, a < 256) →
    (∀ b ∈ l2, b < 256) → ∀ x ∈ List.zipWith (fun a b => a ^^^ b) l1 l2, x < 256
  | [], _, _, _ => by simp
  | _ :: _, [], _, _ => by simp
  | a :: l1, b :: l2, h1, h2 => by
    intro x hx
    simp only [List.zipWith_cons_cons, List.mem_cons] at hx
    rcases hx with rfl | hx
    · have ha : a < 2 ^ 8 := h1 a (by simp)
      have hb : b < 2 ^ 8 := h2 b (by simp)
      simpa using Nat.xor_lt_two_pow ha hb
    · exact zipWith_xor_lt l1 l2 (fun y hy => h1 y (by simp [hy]))
        (fun y hy => h2 y (by simp [hy])) x hx

theorem pbkdf2Loop_lt : ∀ (n : Nat) (pw u acc : List Nat),
    (∀ x ∈ acc, x < 256) → ∀ x ∈ pbkdf2Loop n pw u acc, x < 256
  | 0, _, _, acc, hacc => hacc
  | n + 1, pw, u, acc, hacc => by
    intro x hx
    exact pbkdf2Loop_lt n pw _ _
      (zipWith_xor_lt acc _ hacc (hmacSha256_lt pw u)) x hx

/-- Every byte of a PBKDF2 derived key is below 256. -/
theorem pbkdf2_lt (password salt : List Nat) (iterations : Nat) :
    ∀ x ∈ pbkdf2HmacSha256 password salt iterations, x < 256 :=
  pbkdf2Loop_lt _ _ _ _ (hmacSha256_lt _ _)

/-! ## UTF-8 and the ASCII fragment

`str.encode("utf-8")` and the byte-to-text step of `json.loads(bytes)`.
The JSON the code round-trips is pure ASCII; the model decodes only ASCII
byte strings and treats anything else as undecodable. -/

/-- UTF-8 encoding of one scalar value, written with div/mod arithmetic. -/
def utf8Char (c : Char) : List Nat :=
  let n := c.toNat
  if n < 128 then [n]
  else if n < 2048 then [192 + n / 64, 128 + n % 64]
  else if n < 65536 then [224 + n / 4096, 128 + n / 64 % 64, 128 + n % 64]
  else [240 + n / 262144, 128 + n / 4096 % 64, 128 + n / 64 % 64, 128 + n % 64]

/-- `str.encode("utf-8")` on a text. -/
def utf8Encode (s : List Char) : List Nat := (s.map utf8Char).flatten

/-- On ASCII text, UTF-8 encoding is just the code points. -/
theorem utf8Encode_ascii (s : List Char) (h : ∀ c ∈ s, c.toNat < 128) :
    utf8Encode s = s.map Char.toNat := by
  induction s with
  | nil => rfl
  | cons c cs ih =>
    have hc : c.toNat < 128 := h c (by simp)
    simp only [utf8Encode, List.map_cons, List.flatten_cons] at *
    rw [ih (fun a ha => h a (by simp [ha]))]
    simp [utf8Char, if_pos hc]

/-- ASCII bytes are below 256 (used for the base64 round trips). -/
theorem utf8Encode_ascii_lt (s : List Char) (h : ∀ c ∈ s, c.toNat < 128) :
    ∀ x ∈ utf8Encode s, x < 256 := by
  rw [utf8Encode_ascii s h]
  intro x hx
  obtain ⟨c, hc, rfl⟩ := List.mem_map.mp hx
  exact lt_trans (h c hc) (by omega)

/-- The byte-to-text step of `json.loads` on a `bytes` payload, restricted
to the ASCII fragment the code exercises: byte strings with a byte ≥ 128
are treated as undecodable by the model. -/
def asciiDecode (bs : List Nat) : Option (List Char) :=
  if bs.all (fun b => b < 128) then some (bs.map Char.ofNat) else none

/-- Decoding inverts encoding on ASCII text. -/
theorem asciiDecode_utf8Encode (s : List Char) (h : ∀ c ∈ s, c.toNat < 128) :
    asciiDecode (utf8Encode s) = some s := by
  rw [utf8Encode_ascii s h, asciiDecode]
  rw [if_pos]
  · congr 1
    rw [List.map_map]
    have : (Char.ofNat ∘ Char.toNat) = id := by
      funext c
      exact Char.ofNat_toNat c
    rw [this, List.map_id]
  · rw [List.all_eq_true]
    intro b hb
    obtain ⟨c, hc, rfl⟩ := List.mem_map.mp hb
    simpa using h c hc

/-! ## The JSON fragment the token engine round-trips

`generate_token` serializes with
`json.dumps(part, separators=(",", ":"))` and `decode_token` reads the
payload back with `json.loads`.  The payload is a flat object with plain
ASCII string keys and arbitrary integer values; the model covers exactly
that fragment (no whitespace, no escapes, no floats, no nesting), treating
anything outside it as a decode error, and mirrors CPython's tokenization
(a leading zero ends the number so `01` fails at the delimiter) and dict
construction (a repeated key overwrites its earlier value in place). -/

/-- The character of a decimal digit. -/
def digitChar (n : Nat) : Char := Char.ofNat (48 + n)

/-- Decimal digits of a natural number, most significant first. -/
def natChars (n : Nat) : List Char :=
  if n < 10 then [digitChar n] else natChars (n / 10) ++ [digitChar (n % 10)]
termination_by n
decreasing_by exact Nat.div_lt_self (by omega) (by omega)

/-- The decimal notation of an integer, as `json.dumps` prints it. -/
def intChars (i : Int) : List Char :=
  if i < 0 then '-' :: natChars (-i).toNat else natChars i.toNat

/-- A key character that `json.dumps` emits verbatim and the model's reader
accepts: printable ASCII that needs no escape. -/
def plainChar (c : Char) : Bool :=
  decide (32 ≤ c.toNat ∧ c.toNat < 128 ∧ c ≠ '"' ∧ c ≠ '\\')

/-- One `"key":value` member as `json.dumps` prints it. -/
def dumpsPair (kv : List Char × Int) : List Char :=
  '"' :: kv.1 ++ '"' :: ':' :: intChars kv.2

/-- Comma-separated concatenation. -/
def joinComma : List (List Char) → List Char
  | [] => []
  | [l] => l
  | l :: ls => l ++ ',' :: joinComma ls

/-- `json.dumps(obj, separators=(",", ":"))` for a flat object with string
keys and integer values, keys in insertion order. -/
def dumpsObj (kvs : List (List Char × Int)) : List Char :=
  '{' :: joinComma (kvs.map dumpsPair) ++ ['}']

/-- Parser states for the flat-object reader. -/
inductive JState where
  | start : JState
  | afterBrace : JState
  | expectKey : JState
  | inKey (k : List Char) : JState
  | afterKey (k : List Char) : JState
  | numStart (k : List Char) (neg : Bool) : JState
  | numZero (k : List Char) (neg : Bool) : JState
  | inNum (k : List Char) (neg : Bool) (acc : Nat) : JState
  | atEnd : JState
deriving DecidableEq

/-- The integer denoted by a scanned number. -/
def jval (neg : Bool) (acc : Nat) : Int := if neg then -(acc : Int) else acc

/-- Decimal digit test. -/
def isDigitChar (c : Char) : Bool := decide ('0' ≤ c ∧ c ≤ '9')

/-- One-pass reader for the modeled JSON fragment, accumulating the members
in order of appearance. -/
def parseGo : List Char → JState → List (List Char × Int) →
    Except Unit (List (List Char × Int))
  | [], st, pairs => if st = .atEnd then .ok pairs else .error ()
  | c :: cs, st, pairs =>
    match st with
    | .start => if c = '{' then parseGo cs .afterBrace pairs else .error ()
    | .afterBrace =>
      if c = '"' then parseGo cs (.inKey []) pairs
      else if c = '}' then parseGo cs .atEnd pairs
      else .error ()
    | .expectKey => if c = '"' then parseGo cs (.inKey []) pairs else .error ()
    | .inKey k =>
      if c = '"' then parseGo cs (.afterKey k) pairs
      else if plainChar c then parseGo cs (.inKey (k ++ [c])) pairs
      else .error ()
    | .afterKey k =>
      if c = ':' then parseGo cs (.numStart k false) pairs else .error ()
    | .numStart k neg =>
      if neg = false ∧ c = '-' then parseGo cs (.numStart k true) pairs
      else if c = '0' then parseGo cs (.numZero k neg) pairs
      else if isDigitChar c then parseGo cs (.inNum k neg (c.toNat - 48)) pairs
      else .error ()
    | .numZero k neg =>
      if c = ',' then parseGo cs .expectKey (pairs ++ [(k, jval neg 0)])
      else if c = '}' then parseGo cs .atEnd (pairs ++ [(k, jval neg 0)])
      else .error ()
    | .inNum k neg acc =>
      if isDigitChar c then
        parseGo cs (.inNum k neg (acc * 10 + (c.toNat - 48))) pairs
      else if c = ',' then parseGo cs .expectKey (pairs ++ [(k, jval neg acc)])
      else if c = '}' then parseGo cs .atEnd (pairs ++ [(k, jval neg acc)])
      else .error ()
    | .atEnd => .error ()

/-- Set a key in a Python dict held as an ordered association list: a
repeated key overwrites in place, a new key appends. -/
def assocSet : List (List Char × Int) → List Char → Int → List (List Char × Int)
  | [], k, v => [(k, v)]
  | (k2, v2) :: t, k, v =>
    if k2 = k then (k2, v) :: t else (k2, v2) :: assocSet t k v

/-- The dict built from the members in order of appearance. -/
def pyDict (pairs : List (List Char × Int)) : List (List Char × Int) :=
  pairs.foldl (fun d kv => assocSet d kv.1 kv.2) []

/-- `d.get(k)` on the dict model. -/
def assocGet : List (List Char × Int) → List Char → Option Int
  | [], _ => none
  | (k2, v) :: t, k => if k2 = k then some v else assocGet t k

/-- `int(d.get(k, 0))` on the dict model (all modeled values are already
integers, so `int` is the identity). -/
def assocGetD (d : List (List Char × Int)) (k : List Char) : Int :=
  (assocGet d k).getD 0

/-- `json.loads` on the modeled fragment over text. -/
def parseObjChars (cs : List Char) : Except Unit (List (List Char × Int)) :=
  (parseGo cs .start []).map pyDict

/-- `json.loads` applied to the raw payload bytes of a token. -/
def parsePayload (bs : List Nat) : Except Unit (List (List Char × Int)) :=
  match asciiDecode bs with
  | none => .error ()
  | some cs => parseObjChars cs

deriving instance DecidableEq for Except

theorem digit_facts : ∀ d < 10, (digitChar d).toNat = 48 + d ∧
    isDigitChar (digitChar d) = true ∧ ¬ digitChar d = '-' ∧
    ¬ digitChar d = ',' ∧ ¬ digitChar d = '}' ∧
    (d ≠ 0 → ¬ digitChar d = '0') := by decide

theorem plainChar_ne_quote (c : Char) (h : plainChar c = true) : ¬ c = '"' :=
  (of_decide_eq_true h).2.2.1

/-- Scanning a plain key: the reader accumulates it unchanged up to the
closing quote. -/
theorem parseGo_inKey (k : List Char) (hk : ∀ c ∈ k, plainChar c = true) :
    ∀ (kacc rest : List Char) (pairs : List (List Char × Int)),
    parseGo (k ++ '"' :: rest) (.inKey kacc) pairs =
      parseGo rest (.afterKey (kacc ++ k)) pairs := by
  induction k with
  | nil => intro kacc rest pairs; simp [parseGo]
  | cons c k ih =>
    intro kacc rest pairs
    have hc : plainChar c = true := hk c (by simp)
    simp only [List.cons_append, parseGo, if_neg (plainChar_ne_quote c hc),
      if_pos hc, List.append_eq]
    rw [ih (fun a ha => hk a (by simp [ha]))]
    simp

/-- One digit extends the number accumulator. -/
theorem parseGo_inNum_digit (d : Nat) (hd : d < 10) (cs : List Char)
    (k : List Char) (neg : Bool) (acc : Nat) (pairs : List (List Char × Int)) :
    parseGo (digitChar d :: cs) (.inNum k neg acc) pairs =
      parseGo cs (.inNum k neg (acc * 10 + d)) pairs := by
  obtain ⟨ht, hdig, _⟩ := digit_facts d hd
  simp only [parseGo, hdig, if_pos rfl, if_true, ht]
  have hsub : 48 + d - 48 = d := by omega
  rw [hsub]

/-- A comma after digits pushes the member and expects the next key. -/
theorem parseGo_inNum_comma (cs k : List Char) (neg : Bool) (acc : Nat)
    (pairs : List (List Char × Int)) :
    parseGo (',' :: cs) (.inNum k neg acc) pairs =
      parseGo cs .expectKey (pairs ++ [(k, jval neg acc)]) := by
  have hd : ¬ isDigitChar ',' = true := by decide
  simp only [parseGo, if_neg hd, if_pos rfl, if_true]

/-- A closing brace after digits pushes the member and ends the object. -/
theorem parseGo_inNum_brace (cs k : List Char) (neg : Bool) (acc : Nat)
    (pairs : List (List Char × Int)) :
    parseGo ('}' :: cs) (.inNum k neg acc) pairs =
      parseGo cs .atEnd (pairs ++ [(k, jval neg acc)]) := by
  have hd : ¬ isDigitChar '}' = true := by decide
  have hc : ¬ ('}' : Char) = ',' := by decide
  simp only [parseGo, if_neg hd, if_neg hc, if_pos rfl, if_true]

/-- A comma right after a leading zero pushes a zero member. -/
theorem parseGo_numZero_comma (cs k : List Char) (neg : Bool)
    (pairs : List (List Char × Int)) :
    parseGo (',' :: cs) (.numZero k neg) pairs =
      parseGo cs .expectKey (pairs ++ [(k, jval neg 0)]) := by
  simp only [parseGo, if_pos rfl, if_true]

/-- A closing brace right after a leading zero pushes a zero member. -/
theorem parseGo_numZero_brace (cs k : List Char) (neg : Bool)
    (pairs : List (List Char × Int)) :
    parseGo ('}' :: cs) (.numZero k neg) pairs =
      parseGo cs .atEnd (pairs ++ [(k, jval neg 0)]) := by
  have hc : ¬ ('}' : Char) = ',' := by decide
  simp only [parseGo, if_neg hc, if_pos rfl, if_true]

/-- Scanning a decimal numeral from the start-of-number state lands in the
state recording its value: the zero state for `0`, the in-number state
otherwise. -/
theorem parseGo_natChars (n : Nat) : ∀ (k : List Char) (neg : Bool)
    (rest : List Char) (pairs : List (List Char × Int)),
    parseGo (natChars n ++ rest) (.numStart k neg) pairs =
      parseGo rest
        (if n = 0 then JState.numZero k neg else .inNum k neg n) pairs := by
  induction n using Nat.strong_induction_on with
  | _ n ih =>
    intro k neg rest pairs
    rw [natChars]
    by_cases hn : n < 10
    · rw [if_pos hn]
      obtain ⟨ht, hdig, hm, _⟩ := digit_facts n hn
      have hnm : ¬ (neg = false ∧ digitChar n = '-') := fun h => hm h.2
      by_cases h0 : n = 0
      · subst h0
        have h00 : digitChar 0 = '0' := by decide
        simp only [List.singleton_append, parseGo, if_neg hnm, h00,
          if_pos rfl, if_true]
        simp
      · have hz : ¬ digitChar n = '0' := (digit_facts n hn).2.2.2.2.2 h0
        simp only [List.singleton_append, parseGo, if_neg hnm, if_neg hz,
          hdig, if_pos rfl, if_true, ht, if_neg h0]
        have hsub : 48 + n - 48 = n := by omega
        rw [hsub]
        simp
    · rw [if_neg hn]
      have h10 : n / 10 < n := Nat.div_lt_self (by omega) (by omega)
      have hq : ¬ n / 10 = 0 := by omega
      rw [List.append_assoc, ih (n / 10) h10 k neg _ pairs, if_neg hq]
      rw [List.singleton_append, parseGo_inNum_digit (n % 10) (by omega)]
      rw [if_neg (by omega : ¬ n = 0)]
      have hdm : n / 10 * 10 + n % 10 = n := by omega
      rw [hdm]

/-- Reading a minus sign from the start-of-number state. -/
theorem parseGo_numStart_minus (cs k : List Char)
    (pairs : List (List Char × Int)) :
    parseGo ('-' :: cs) (.numStart k false) pairs =
      parseGo cs (.numStart k true) pairs := by
  simp only [parseGo, and_self, if_true]

/-- Reading `value,`: the member is pushed and the reader expects the next
key. -/
theorem parseGo_value_comma (v : Int) (k rest : List Char)
    (pairs : List (List Char × Int)) :
    parseGo (intChars v ++ ',' :: rest) (.numStart k false) pairs =
      parseGo rest .expectKey (pairs ++ [(k, v)]) := by
  by_cases hv : v < 0
  · have hnz : ¬ (-v).toNat = 0 := by omega
    rw [intChars, if_pos hv, List.cons_append, parseGo_numStart_minus,
      parseGo_natChars _ k true _ pairs, if_neg hnz, parseGo_inNum_comma]
    have hjv : jval true (-v).toNat = v := by
      simp only [jval, if_true]
      omega
    rw [hjv]
  · rw [intChars, if_neg hv, parseGo_natChars _ k false _ pairs]
    by_cases h0 : v.toNat = 0
    · rw [if_pos h0, parseGo_numZero_comma]
      have hjv : jval false 0 = v := by
        simp only [jval, if_neg Bool.false_ne_true]
        omega
      rw [hjv]
    · rw [if_neg h0, parseGo_inNum_comma]
      have hjv : jval false v.toNat = v := by
        simp only [jval, if_neg Bool.false_ne_true]
        omega
      rw [hjv]

/-- Reading `value}`: the member is pushed and the object closes. -/
theorem parseGo_value_brace (v : Int) (k rest : List Char)
    (pairs : List (List Char × Int)) :
    parseGo (intChars v ++ '}' :: rest) (.numStart k false) pairs =
      parseGo rest .atEnd (pairs ++ [(k, v)]) := by
  by_cases hv : v < 0
  · have hnz : ¬ (-v).toNat = 0 := by omega
    rw [intChars, if_pos hv, List.cons_append, parseGo_numStart_minus,
      parseGo_natChars _ k true _ pairs, if_neg hnz, parseGo_inNum_brace]
    have hjv : jval true (-v).toNat = v := by
      simp only [jval, if_true]
      omega
    rw [hjv]
  · rw [intChars, if_neg hv, parseGo_natChars _ k false _ pairs]
    by_cases h0 : v.toNat = 0
    · rw [if_pos h0, parseGo_numZero_brace]
      have hjv : jval false 0 = v := by
        simp only [jval, if_neg Bool.false_ne_true]
        omega
      rw [hjv]
    · rw [if_neg h0, parseGo_inNum_brace]
      have hjv : jval false v.toNat = v := by
        simp only [jval, if_neg Bool.false_ne_true]
        omega
      rw [hjv]

/-- A quote from either member-expecting state starts a key. -/
theorem parseGo_quote (cs : List Char) (st : JState)
    (hst : st = .afterBrace ∨ st = .expectKey)
    (pairs : List (List Char × Int)) :
    parseGo ('"' :: cs) st pairs = parseGo cs (.inKey []) pairs := by
  rcases hst with rfl | rfl
  · simp only [parseGo, if_pos rfl, if_true]
  · simp only [parseGo, if_pos rfl, if_true]

/-- Scanning the serialized members: from a member-expecting state, the
members are appended in order and the reader leaves through the closing
brace. -/
theorem parseGo_members : ∀ (kvs : List (List Char × Int))
    (kv : List Char × Int) (pairs : List (List Char × Int)) (st : JState),
    (st = .afterBrace ∨ st = .expectKey) →
    (∀ c ∈ kv.1, plainChar c = true) →
    (∀ p ∈ kvs, ∀ c ∈ p.1, plainChar c = true) →
    parseGo (joinComma ((kv :: kvs).map dumpsPair) ++ ['}']) st pairs =
      .ok (pairs ++ kv :: kvs)
  | [], kv, pairs, st, hst, hkv, _ => by
    show parseGo (dumpsPair kv ++ ['}']) st pairs = _
    rw [dumpsPair]
    simp only [List.cons_append, List.append_assoc]
    rw [parseGo_quote _ st hst, parseGo_inKey kv.1 hkv, List.nil_append]
    show parseGo (':' :: (intChars kv.2 ++ '}' :: [])) _ _ = _
    simp only [parseGo, if_pos rfl, if_true]
    rw [parseGo_value_brace]
    simp [parseGo]
  | kv2 :: kvs, kv, pairs, st, hst, hkv, hrest => by
    show parseGo ((dumpsPair kv ++ ',' :: joinComma ((kv2 :: kvs).map dumpsPair)) ++ ['}'])
        st pairs = _
    rw [dumpsPair]
    simp only [List.cons_append, List.append_assoc]
    rw [parseGo_quote _ st hst, parseGo_inKey kv.1 hkv, List.nil_append]
    show parseGo (':' :: (intChars kv.2 ++ ',' :: (joinComma ((kv2 :: kvs).map dumpsPair) ++ ['}']))) _ _ = _
    simp only [parseGo, if_pos rfl, if_true]
    rw [parseGo_value_comma]
    rw [parseGo_members kvs kv2 _ .expectKey (Or.inr rfl)
      (hrest kv2 (by simp)) (fun p hp => hrest p (by simp [hp]))]
    simp

/-- Setting an absent key appends it. -/
theorem assocSet_append (d : List (List Char × Int)) (k : List Char) (v : Int)
    (h : ∀ p ∈ d, p.1 ≠ k) : assocSet d k v = d ++ [(k, v)] := by
  induction d with
  | nil => rfl
  | cons p t ih =>
    have hp : ¬ p.1 = k := h p (by simp)
    cases p with
    | mk k2 v2 =>
      simp only [assocSet, if_neg hp]
      rw [ih (fun q hq => h q (by simp [hq]))]
      simp

theorem pyDict_go : ∀ (pairs d : List (List Char × Int)),
    (((d ++ pairs).map Prod.fst).Nodup) →
    pairs.foldl (fun d kv => assocSet d kv.1 kv.2) d = d ++ pairs
  | [], d, _ => by simp
  | kv :: pairs, d, h => by
    have hmem : ∀ p ∈ d, p.1 ≠ kv.1 := by
      intro p hp hpk
      rw [List.map_append, List.nodup_append] at h
      exact h.2.2 (List.mem_map_of_mem _ hp) (by simp [hpk])
    simp only [List.foldl_cons]
    rw [assocSet_append d kv.1 kv.2 hmem]
    have h2 : (((d ++ [kv]) ++ pairs).map Prod.fst).Nodup := by
      simpa using h
    rw [pyDict_go pairs (d ++ [kv]) h2]
    simp

/-- Building the dict from members with pairwise distinct keys keeps them
in order, unchanged. -/
theorem pyDict_nodup (pairs : List (List Char × Int))
    (h : (pairs.map Prod.fst).Nodup) : pyDict pairs = pairs := by
  have := pyDict_go pairs [] (by simpa using h)
  simpa [pyDict] using this

/-- The serializer/parser round trip on the modeled JSON fragment: parsing
a dumped flat object with plain, pairwise distinct keys returns exactly its
members. -/
theorem parseObjChars_dumpsObj (kvs : List (List Char × Int))
    (hk : ∀ p ∈ kvs, ∀ c ∈ p.1, plainChar c = true)
    (hnd : (kvs.map Prod.fst).Nodup) :
    parseObjChars (dumpsObj kvs) = .ok kvs := by
  cases kvs with
  | nil => decide
  | cons kv kvs =>
    rw [parseObjChars, dumpsObj]
    have hbr : parseGo ('{' :: (joinComma ((kv :: kvs).map dumpsPair) ++ ['}']))
        .start [] = .ok ([] ++ kv :: kvs) := by
      have hstep : parseGo ('{' :: (joinComma ((kv :: kvs).map dumpsPair) ++ ['}']))
          .start [] = parseGo (joinComma ((kv :: kvs).map dumpsPair) ++ ['}'])
            .afterBrace [] := by
        simp only [parseGo, if_pos rfl, if_true]
      rw [hstep]
      exact parseGo_members kvs kv [] .afterBrace (Or.inl rfl)
        (hk kv (by simp)) (fun p hp => hk p (by simp [hp]))
    rw [← List.cons_append] at hbr
    rw [hbr]
    simp only [List.nil_append, Except.map]
    rw [pyDict_nodup _ hnd]

/-- Every character of a decimal numeral is a digit. -/
theorem natChars_mem (n : Nat) : ∀ c ∈ natChars n, ∃ d, d < 10 ∧ c = digitChar d := by
  induction n using Nat.strong_induction_on with
  | _ n ih =>
    intro c hc
    rw [natChars] at hc
    by_cases hn : n < 10
    · rw [if_pos hn] at hc
      simp only [List.mem_singleton] at hc
      exact ⟨n, hn, hc⟩
    · rw [if_neg hn] at hc
      rcases List.mem_append.mp hc with hc | hc
      · exact ih (n / 10) (Nat.div_lt_self (by omega) (by omega)) c hc
      · simp only [List.mem_singleton] at hc
        exact ⟨n % 10, by omega, hc⟩

/-- Every character a dumped flat object contains is ASCII, provided its
keys are plain. -/
theorem dumpsObj_ascii (kvs : List (List Char × Int))
    (hk : ∀ p ∈ kvs, ∀ c ∈ p.1, plainChar c = true) :
    ∀ c ∈ dumpsObj kvs, c.toNat < 128 := by
  have hpair : ∀ p ∈ kvs, ∀ c ∈ dumpsPair p, c.toNat < 128 := by
    intro p hp c hc
    rw [dumpsPair] at hc
    rcases List.mem_cons.mp hc with rfl | hc
    · decide
    rcases List.mem_append.mp hc with hc | hc
    · exact (of_decide_eq_true (hk p hp c hc)).2.1
    rcases List.mem_cons.mp hc with rfl | hc
    · decide
    rcases List.mem_cons.mp hc with rfl | hc
    · decide
    · rw [intChars] at hc
      by_cases hv : p.2 < 0
      · rw [if_pos hv] at hc
        simp only [List.mem_cons] at hc
        rcases hc with rfl | hc
        · decide
        · obtain ⟨d, hd, rfl⟩ := natChars_mem _ c hc
          have : ∀ d < 10, (digitChar d).toNat < 128 := by decide
          exact this d hd
      · rw [if_neg hv] at hc
        obtain ⟨d, hd, rfl⟩ := natChars_mem _ c hc
        have : ∀ d < 10, (digitChar d).toNat < 128 := by decide
        exact this d hd
  have hjoin : ∀ (ls : List (List Char × Int)), (∀ p ∈ ls, ∀ c ∈ dumpsPair p, c.toNat < 128) →
      ∀ c ∈ joinComma (ls.map dumpsPair), c.toNat < 128 := by
    intro ls
    induction ls with
    | nil => intro _ c hc; simp [joinComma] at hc
    | cons p t ih =>
      intro hls c hc
      cases t with
      | nil =>
        simp only [List.map_cons, List.map_nil, joinComma] at hc
        exact hls p (by simp) c hc
      | cons q t2 =>
        simp only [List.map_cons, joinComma] at hc
        rcases List.mem_append.mp hc with hc | hc
        · exact hls p (by simp) c hc
        rcases List.mem_cons.mp hc with rfl | hc
        · decide
        · exact ih (fun r hr => hls r (List.mem_cons_of_mem _ hr)) c
            (by simpa [List.map_cons, joinComma] using hc)
  intro c hc
  rw [dumpsObj] at hc
  rcases List.mem_cons.mp hc with rfl | hc
  · decide
  rcases List.mem_append.mp hc with hc | hc
  · exact hjoin kvs hpair c hc
  · have h2 : c = '}' := List.mem_singleton.mp hc
    subst h2
    decide

/-! ## The authentication core of `jmail/auth.py`

Errors are tracked by Python exception class and message.  `os.urandom(16)`
is an explicit `salt` argument, `int(time.time())` an explicit `now`
argument, and the PBKDF2 iteration count is the source's 120000. -/

/-- The exceptions the auth layer raises: `ValueError(msg)`, the
`binascii.Error` escaping `_b64decode` (itself a `ValueError` subclass),
and the `TypeError` of subscripting a missing row. -/
inductive PyError where
  | valueError (msg : String) : PyError
  | binasciiError (e : B64Error) : PyError
  | typeError : PyError
deriving DecidableEq

/-- `hash_password`: PBKDF2-HMAC-SHA256 of the UTF-8 password with a
16-byte random salt at 120000 iterations, stored as
`b64(salt) + "$" + b64(derived_key)`. -/
def hashPassword (password : List Char) (salt : List Nat) : List Char :=
  b64encode salt ++ '$' ::
    b64encode (pbkdf2HmacSha256 (utf8Encode password) salt 120000)

/-- The body of `verify_password` after the split: decode both fields and
compare the recomputed derived key with `hmac.compare_digest` (modelled as
equality of byte strings).  The two `_b64decode` calls sit *outside* the
`try` of the source, so their `binascii.Error` escapes, which the `Except`
error case records. -/
def verifyParts (password saltB64 hashB64 : List Char) : Except B64Error Bool :=
  match b64decode saltB64 with
  | .error e => .error e
  | .ok salt =>
    match b64decode hashB64 with
    | .error e => .error e
    | .ok expected =>
      .ok (expected == pbkdf2HmacSha256 (utf8Encode password) salt 120000)

/-- `verify_password`: split the stored string on `$` — a field count other
than two raises the `ValueError` the source catches
(`except ValueError: return False`) — then check the credential. -/
def verifyPassword (password stored : List Char) : Except B64Error Bool :=
  match splitOnChar '$' stored with
  | [saltB64, hashB64] => verifyParts password saltB64 hashB64
  | _ => .ok false

/-- Splitting into exactly two fields hands them to the body. -/
theorem verifyPassword_two_fields (password stored s1 s2 : List Char)
    (hsp : splitOnChar '$' stored = [s1, s2]) :
    verifyPassword password stored = verifyParts password s1 s2 := by
  rw [verifyPassword, hsp]

/-- The body on two decodable fields compares the recomputed key. -/
theorem verifyParts_ok (password s1 s2 : List Char) (salt dk : List Nat)
    (h1 : b64decode s1 = .ok salt) (h2 : b64decode s2 = .ok dk) :
    verifyParts password s1 s2 =
      .ok (dk == pbkdf2HmacSha256 (utf8Encode password) salt 120000) := by
  rw [verifyParts, h1, h2]

/-- A salt field that fails base64 decoding raises. -/
theorem verifyParts_err1 (password s1 s2 : List Char) (e : B64Error)
    (h1 : b64decode s1 = .error e) :
    verifyParts password s1 s2 = .error e := by
  rw [verifyParts, h1]

/-- A key field that fails base64 decoding raises. -/
theorem verifyParts_err2 (password s1 s2 : List Char) (salt : List Nat)
    (e : B64Error) (h1 : b64decode s1 = .ok salt)
    (h2 : b64decode s2 = .error e) :
    verifyParts password s1 s2 = .error e := by
  rw [verifyParts, h1, h2]

/-- The configuration fields the token engine reads. -/
structure AppConfig where
  jwt_secret : List Char
  token_exp_seconds : Nat
deriving DecidableEq

/-- `json.dumps({"alg": "HS256", "typ": "JWT"}, separators=(",", ":"))`,
a constant. -/
def headerJson : List Char :=
  String.toList "\x7b\"alg\":\"HS256\",\"typ\":\"JWT\"\x7d"

/-- The claims `generate_token` places in the payload, in insertion order:
`sub`, `iat`, `exp = now + config.token_exp_seconds`. -/
def tokenPayload (userId : Int) (now : Nat) (cfg : AppConfig) :
    List (List Char × Int) :=
  [(String.toList "sub", userId), (String.toList "iat", (now : Int)),
   (String.toList "exp", (now : Int) + (cfg.token_exp_seconds : Int))]

/-- `generate_token`: sign `b64(header) + "." + b64(payload)` with
HMAC-SHA256 under the configured secret and append the encoded MAC. -/
def generateToken (userId : Int) (now : Nat) (cfg : AppConfig) : List Char :=
  let signingInput := b64encode (utf8Encode headerJson) ++ '.' ::
    b64encode (utf8Encode (dumpsObj (tokenPayload userId now cfg)))
  signingInput ++ '.' ::
    b64encode (hmacSha256 (utf8Encode cfg.jwt_secret) (utf8Encode signingInput))

/-- The failure modes of `decode_token`, by raising site.  In Python,
`malformed`, `invalidSignature` and `expired` are `ValueError`s with fixed
messages; `sigDecodeError` and `payloadDecodeError` are the `binascii.Error`
of `_b64decode` on the signature and payload segments respectively; and
`payloadParseError` is `json.loads` failing on the decoded payload bytes. -/
inductive TokenError where
  | malformed : TokenError
  | sigDecodeError (e : B64Error) : TokenError
  | invalidSignature : TokenError
  | payloadDecodeError (e : B64Error) : TokenError
  | payloadParseError : TokenError
  | expired : TokenError
deriving DecidableEq

/-- `decode_token`: split on dots (exactly three parts or "Malformed
token"), recompute the MAC over `header_b64 + "." + payload_b64`, decode the
supplied signature (a `binascii.Error` here escapes before the comparison),
compare in constant time ("Invalid signature"), and only then base64-decode
and JSON-parse the payload and check `int(time.time()) >= int(payload.get("exp", 0))`
("Token expired"). -/
def decodeToken (token : List Char) (now : Nat) (cfg : AppConfig) :
    Except TokenError (List (List Char × Int)) :=
  match splitOnChar '.' token with
  | [h, p, s] =>
    let expected := hmacSha256 (utf8Encode cfg.jwt_secret) (utf8Encode (h ++ '.' :: p))
    match b64decode s with
    | .error e => .error (.sigDecodeError e)
    | .ok sig =>
      if expected = sig then
        match b64decode p with
        | .error e => .error (.payloadDecodeError e)
        | .ok pb =>
          match parsePayload pb with
          | .error _ => .error .payloadParseError
          | .ok payload =>
            if (now : Int) ≥ assocGetD payload (String.toList "exp") then
              .error .expired
            else .ok payload
      else .error .invalidSignature
  | _ => .error .malformed

/-- Python's `\s` character class for Unicode string patterns: the code
points `Py_UNICODE_ISSPACE` accepts. -/
def pySpace (c : Char) : Bool :=
  [9, 10, 11, 12, 13, 28, 29, 30, 31, 32, 133, 160, 5760, 8192, 8193, 8194,
   8195, 8196, 8197, 8198, 8199, 8200, 8201, 8202, 8232, 8233, 8239, 8287,
   12288].contains c.toNat

/-- A character admissible in the `[^@\s]` classes of `EMAIL_REGEX`. -/
def emailCharOk (c : Char) : Bool := !(decide (c = '@')) && !(pySpace c)

/-- The `[^@\s]+\.[^@\s]+` requirement on the domain: some dot strictly
inside the domain, i.e. at neither its first nor its last position. -/
def dotOk (d : List Char) : Bool := ((d.drop 1).dropLast).contains '.'

/-- A full-string match of `EMAIL_REGEX = ^[^@\s]+@[^@\s]+\.[^@\s]+$`
against text that `$` does not have to treat specially: a non-empty
`[^@\s]+` local part, one `@`, and a domain of `[^@\s]` characters with a
dot strictly inside it. -/
def emailCore (t : List Char) : Bool :=
  let l := t.takeWhile (fun c => !(decide (c = '@')))
  match t.dropWhile (fun c => !(decide (c = '@'))) with
  | '@' :: d => !(decide (l = [])) && l.all emailCharOk && d.all emailCharOk && dotOk d
  | _ => false

/-- `EMAIL_REGEX.match(s)` as a whole: in Python, a `$` anchor also matches
just before a single trailing newline, so `s` matches when its core matches
or when it ends in `\n` and the part before that newline matches. -/
def emailRegexMatch (s : List Char) : Bool :=
  emailCore s || (decide (s.getLast? = some '\n') && emailCore s.dropLast)

/-- `validate_email`: raises `ValueError("Invalid email address")` when the
regex does not match, otherwise returns the address unchanged. -/
def validateEmail (s : List Char) : Except PyError (List Char) :=
  if emailRegexMatch s then .ok s else .error (.valueError "Invalid email address")

/-! ## The user store of `jmail/database.py` and the auth orchestration

The sqlite store is modelled as an ordered list of rows plus the
auto-increment counter; `created_at` (`TIMESTAMP DEFAULT CURRENT_TIMESTAMP`,
projected through `isoformat()` by `row_to_dict`) is carried as an opaque
string supplied at creation time. -/

/-- A row of the `users` table. -/
structure UserRow where
  id : Nat
  email : List Char
  password_hash : List Char
  display_name : Option (List Char)
  created_at : List Char
deriving DecidableEq

/-- The store: the auto-increment counter and the rows in insertion order. -/
structure Store where
  nextId : Nat
  rows : List UserRow
deriving DecidableEq

/-- `Database.get_user_by_email`. -/
def getUserByEmail (db : Store) (email : List Char) : Option UserRow :=
  db.rows.find? (fun r => decide (r.email = email))

/-- `Database.get_user_by_id`. -/
def getUserById (db : Store) (uid : Nat) : Option UserRow :=
  db.rows.find? (fun r => decide (r.id = uid))

/-- `Database.create_user`: insert a fresh row and return `lastrowid`. -/
def createUser (db : Store) (email passwordHash : List Char)
    (displayName : Option (List Char)) (createdAt : List Char) : Nat × Store :=
  (db.nextId,
   ⟨db.nextId + 1,
    db.rows ++ [⟨db.nextId, email, passwordHash, displayName, createdAt⟩]⟩)

/-- The external user view `row_to_dict` builds (never the credential). -/
structure UserView where
  id : Nat
  email : List Char
  display_name : Option (List Char)
  created_at : List Char
deriving DecidableEq

/-- `row_to_dict`: project a row to the view, `created_at` as its string
rendering. -/
def rowToDict (r : UserRow) : UserView :=
  ⟨r.id, r.email, r.display_name, r.created_at⟩

/-- The `AuthResult` dataclass: a token and the user view. -/
structure AuthResult where
  token : List Char
  user : UserView
deriving DecidableEq

/-- `authenticate_user`: look up by email; when the row is missing or the
password does not verify, raise the one generic
`ValueError("Invalid email or password")`; `row is None` short-circuits, so
`verify_password` runs only on an existing row, and an exception escaping
`verify_password` propagates. -/
def authenticateUser (db : Store) (email password : List Char) (now : Nat)
    (cfg : AppConfig) : Except PyError AuthResult :=
  match getUserByEmail db email with
  | none => .error (.valueError "Invalid email or password")
  | some row =>
    match verifyPassword password row.password_hash with
    | .error e => .error (.binasciiError e)
    | .ok verified =>
      if verified then .ok ⟨generateToken (row.id : Int) now cfg, rowToDict row⟩
      else .error (.valueError "Invalid email or password")

/-- `register_user`: validate the email shape, reject an already registered
email, and only then hash the password, create the row, re-read it and issue
a token.  The store is threaded explicitly, so the returned `Store` is the
state after the call; a `None` row after creation would crash `row_to_dict`
with a `TypeError`, recorded as `PyError.typeError`. -/
def registerUser (db : Store) (email password : List Char)
    (displayName : Option (List Char)) (salt : List Nat) (createdAt : List Char)
    (now : Nat) (cfg : AppConfig) : Except PyError AuthResult × Store :=
  if emailRegexMatch email = false then
    (.error (.valueError "Invalid email address"), db)
  else if (getUserByEmail db email).isSome then
    (.error (.valueError "Email already registered"), db)
  else
    let ph := hashPassword password salt
    let created := createUser db email ph displayName createdAt
    match getUserById created.2 created.1 with
    | none => (.error .typeError, created.2)
    | some row => (.ok ⟨generateToken (created.1 : Int) now cfg, rowToDict row⟩, created.2)

/-! ## Token engine facts -/

theorem headerJson_ascii : ∀ c ∈ headerJson, c.toNat < 128 := by decide

theorem tokenPayload_plain (uid : Int) (now : Nat) (cfg : AppConfig) :
    ∀ p ∈ tokenPayload uid now cfg, ∀ c ∈ p.1, plainChar c = true := by
  intro p hp
  rcases List.mem_cons.mp hp with rfl | hp
  · show ∀ c ∈ String.toList "sub", plainChar c = true
    decide
  rcases List.mem_cons.mp hp with rfl | hp
  · show ∀ c ∈ String.toList "iat", plainChar c = true
    decide
  rcases List.mem_cons.mp hp with rfl | hp
  · show ∀ c ∈ String.toList "exp", plainChar c = true
    decide
  · simp at hp

theorem tokenPayload_nodup (uid : Int) (now : Nat) (cfg : AppConfig) :
    ((tokenPayload uid now cfg).map Prod.fst).Nodup := by
  show ([String.toList "sub", String.toList "iat", String.toList "exp"]).Nodup
  decide

/-- Decoding a three-part token whose signature segment decodes to exactly
the MAC recomputed over its first two segments, and whose payload decodes
and parses: everything reduces to the expiry check. -/
theorem decodeToken_signed (hB pB sB : List Char) (now : Nat) (cfg : AppConfig)
    (hh : '.' ∉ hB) (hp : '.' ∉ pB) (hs : '.' ∉ sB)
    (pbytes : List Nat) (kvs : List (List Char × Int))
    (hsig : b64decode sB = .ok (hmacSha256 (utf8Encode cfg.jwt_secret)
      (utf8Encode (hB ++ '.' :: pB))))
    (hpb : b64decode pB = .ok pbytes)
    (hparse : parsePayload pbytes = .ok kvs) :
    decodeToken ((hB ++ '.' :: pB) ++ '.' :: sB) now cfg =
      if (now : Int) ≥ assocGetD kvs (String.toList "exp") then .error .expired
      else .ok kvs := by
  have e1 : (hB ++ '.' :: pB) ++ '.' :: sB = hB ++ '.' :: (pB ++ '.' :: sB) := by
    simp
  rw [decodeToken, e1, splitOnChar_three '.' hB pB sB hh hp hs]
  simp only [hsig, hpb, hparse]
  simp

/-- The issued token is the three segments joined by dots. -/
theorem generateToken_parts (uid : Int) (now : Nat) (cfg : AppConfig) :
    generateToken uid now cfg =
      (b64encode (utf8Encode headerJson) ++ '.' ::
        b64encode (utf8Encode (dumpsObj (tokenPayload uid now cfg)))) ++ '.' ::
        b64encode (hmacSha256 (utf8Encode cfg.jwt_secret)
          (utf8Encode (b64encode (utf8Encode headerJson) ++ '.' ::
            b64encode (utf8Encode (dumpsObj (tokenPayload uid now cfg)))))) := rfl

theorem assocGetD_tokenPayload (uid : Int) (now : Nat) (cfg : AppConfig) :
    assocGetD (tokenPayload uid now cfg) (String.toList "exp") =
      (now : Int) + (cfg.token_exp_seconds : Int) := by
  have h1 : ¬ String.toList "sub" = String.toList "exp" := by decide
  have h2 : ¬ String.toList "iat" = String.toList "exp" := by decide
  simp [tokenPayload, assocGetD, assocGet, if_neg h1, if_neg h2]

theorem assocGet_tokenPayload_sub (uid : Int) (now : Nat) (cfg : AppConfig) :
    assocGet (tokenPayload uid now cfg) (String.toList "sub") = some uid := by
  simp [tokenPayload, assocGet]

/-- Round trip of the token engine: decoding an issued token before its
expiry returns its payload. -/
theorem decodeToken_generateToken (uid : Int) (now : Nat) (cfg : AppConfig)
    (now2 : Nat) (ht : now2 < now + cfg.token_exp_seconds) :
    decodeToken (generateToken uid now cfg) now2 cfg =
      .ok (tokenPayload uid now cfg) := by
  have hhb : ∀ x ∈ utf8Encode headerJson, x < 256 :=
    utf8Encode_ascii_lt headerJson headerJson_ascii
  have hdump : ∀ c ∈ dumpsObj (tokenPayload uid now cfg), c.toNat < 128 :=
    dumpsObj_ascii _ (tokenPayload_plain uid now cfg)
  have hpb : ∀ x ∈ utf8Encode (dumpsObj (tokenPayload uid now cfg)), x < 256 :=
    utf8Encode_ascii_lt _ hdump
  rw [generateToken_parts]
  rw [decodeToken_signed _ _ _ now2 cfg
    (b64encode_no_dot _ hhb) (b64encode_no_dot _ hpb)
    (b64encode_no_dot _ (hmacSha256_lt _ _))
    (utf8Encode (dumpsObj (tokenPayload uid now cfg)))
    (tokenPayload uid now cfg)
    (b64decode_b64encode _ (hmacSha256_lt _ _))
    (b64decode_b64encode _ hpb)
    (by
      rw [parsePayload, asciiDecode_utf8Encode _ hdump]
      exact parseObjChars_dumpsObj _ (tokenPayload_plain uid now cfg)
        (tokenPayload_nodup uid now cfg))]
  rw [assocGetD_tokenPayload]
  rw [if_neg]
  omega

/-! ## The claimed properties -/

/-- C1: for every user id, issue time, TTL (carried by the config) and
secret, decoding a token produced by the token engine with the same secret
at a time before its expiry succeeds and returns the issued payload, whose
`sub` field equals the user id the token was issued for. -/
theorem claim1_token_roundtrip (uid : Int) (now : Nat) (cfg : AppConfig)
    (now2 : Nat) (ht : now2 < now + cfg.token_exp_seconds) :
    decodeToken (generateToken uid now cfg) now2 cfg =
      .ok (tokenPayload uid now cfg) ∧
    assocGet (tokenPayload uid now cfg) (String.toList "sub") = some uid :=
  ⟨decodeToken_generateToken uid now cfg now2 ht,
   assocGet_tokenPayload_sub uid now cfg⟩

/-- Witness for C1 at user id 7, issue time 10, TTL 600, decode time 3. -/
theorem claim1_witness :
    (3 : Nat) < 10 + 600 ∧
    (decodeToken (generateToken 7 10 ⟨String.toList "secret", 600⟩) 3
        ⟨String.toList "secret", 600⟩ =
      .ok (tokenPayload 7 10 ⟨String.toList "secret", 600⟩) ∧
    assocGet (tokenPayload 7 10 ⟨String.toList "secret", 600⟩)
      (String.toList "sub") = some 7) :=
  ⟨by omega, claim1_token_roundtrip 7 10 ⟨String.toList "secret", 600⟩ 3 (by omega)⟩

/-- C2: on a well-formed, correctly signed token whose payload carries an
integer `exp` claim, `decode_token` fails with the expired-token error
exactly when the current time is ≥ `exp` — in particular it fails at the
exact expiry instant and succeeds one second before. -/
theorem claim2_expiry_boundary (hB pB sB : List Char) (now : Nat)
    (cfg : AppConfig) (hh : '.' ∉ hB) (hp : '.' ∉ pB) (hs : '.' ∉ sB)
    (pbytes : List Nat) (kvs : List (List Char × Int)) (e : Int)
    (hsig : b64decode sB = .ok (hmacSha256 (utf8Encode cfg.jwt_secret)
      (utf8Encode (hB ++ '.' :: pB))))
    (hpb : b64decode pB = .ok pbytes)
    (hparse : parsePayload pbytes = .ok kvs)
    (hexp : assocGet kvs (String.toList "exp") = some e) :
    decodeToken ((hB ++ '.' :: pB) ++ '.' :: sB) now cfg =
      if (now : Int) ≥ e then .error .expired else .ok kvs := by
  rw [decodeToken_signed hB pB sB now cfg hh hp hs pbytes kvs hsig hpb hparse]
  rw [assocGetD, hexp]
  rfl

/-- The secret, payload and signature of the concrete well-formed token the
boundary witnesses use: payload `{"exp":5}` signed under secret `"k"`. -/
def demoSecret : List Char := String.toList "k"

def demoPayloadChars : List Char := String.toList "\x7b\"exp\":5\x7d"

def demoPB : List Char := b64encode (utf8Encode demoPayloadChars)

def demoSB : List Char :=
  b64encode (hmacSha256 (utf8Encode demoSecret)
    (utf8Encode (['A'] ++ '.' :: demoPB)))

/-- Witness for C2: the concrete signed token with `exp = 5` is rejected as
expired at time 5 and accepted at time 4. -/
theorem claim2_witness :
    ('.' ∉ (['A'] : List Char)) ∧ '.' ∉ demoPB ∧ '.' ∉ demoSB ∧
    b64decode demoSB = .ok (hmacSha256
      (utf8Encode (AppConfig.mk demoSecret 600).jwt_secret)
      (utf8Encode (['A'] ++ '.' :: demoPB))) ∧
    b64decode demoPB = .ok (utf8Encode demoPayloadChars) ∧
    parsePayload (utf8Encode demoPayloadChars) = .ok [(String.toList "exp", 5)] ∧
    assocGet [(String.toList "exp", 5)] (String.toList "exp") = some 5 ∧
    decodeToken ((['A'] ++ '.' :: demoPB) ++ '.' :: demoSB) 5
      ⟨demoSecret, 600⟩ = .error .expired ∧
    decodeToken ((['A'] ++ '.' :: demoPB) ++ '.' :: demoSB) 4
      ⟨demoSecret, 600⟩ = .ok [(String.toList "exp", 5)] := by
  have hd1 : '.' ∉ (['A'] : List Char) := by decide
  have hd2 : '.' ∉ demoPB := by decide
  have hd3 : '.' ∉ demoSB := by decide
  have hsig : b64decode demoSB = .ok (hmacSha256
      (utf8Encode (AppConfig.mk demoSecret 600).jwt_secret)
      (utf8Encode (['A'] ++ '.' :: demoPB))) := by decide
  have hpb : b64decode demoPB = .ok (utf8Encode demoPayloadChars) := by decide
  have hparse : parsePayload (utf8Encode demoPayloadChars) =
      .ok [(String.toList "exp", 5)] := by decide
  have hexp : assocGet [(String.toList "exp", 5)] (String.toList "exp") =
      some 5 := by decide
  have h5 := claim2_expiry_boundary ['A'] demoPB demoSB 5 ⟨demoSecret, 600⟩
    hd1 hd2 hd3 _ _ 5 hsig hpb hparse hexp
  have h4 := claim2_expiry_boundary ['A'] demoPB demoSB 4 ⟨demoSecret, 600⟩
    hd1 hd2 hd3 _ _ 5 hsig hpb hparse hexp
  exact ⟨hd1, hd2, hd3, hsig, hpb, hparse, hexp,
    h5.trans (by decide), h4.trans (by decide)⟩

/-- C9 (implicit): a token that splits into three parts and carries a valid
signature but whose payload has no `exp` member is always rejected as
expired: the missing expiry defaults to 0 and the clock is never below 0. -/
theorem claim9_missing_exp_rejected (hB pB sB : List Char) (now : Nat)
    (cfg : AppConfig) (hh : '.' ∉ hB) (hp : '.' ∉ pB) (hs : '.' ∉ sB)
    (pbytes : List Nat) (kvs : List (List Char × Int))
    (hsig : b64decode sB = .ok (hmacSha256 (utf8Encode cfg.jwt_secret)
      (utf8Encode (hB ++ '.' :: pB))))
    (hpb : b64decode pB = .ok pbytes)
    (hparse : parsePayload pbytes = .ok kvs)
    (hexp : assocGet kvs (String.toList "exp") = none) :
    decodeToken ((hB ++ '.' :: pB) ++ '.' :: sB) now cfg = .error .expired := by
  rw [decodeToken_signed hB pB sB now cfg hh hp hs pbytes kvs hsig hpb hparse]
  rw [assocGetD, hexp]
  rw [if_pos]
  show (0 : Int) ≤ (now : Int)
  omega

/-- The empty-payload token for the C9 witness: payload `{}` signed under
secret `"k"`. -/
def demoEmptyPB : List Char := b64encode (utf8Encode (String.toList "\x7b\x7d"))

def demoEmptySB : List Char :=
  b64encode (hmacSha256 (utf8Encode demoSecret)
    (utf8Encode (['A'] ++ '.' :: demoEmptyPB)))

/-- Witness for C9: the concrete signed token with payload `{}` is rejected
as expired even at time 0. -/
theorem claim9_witness :
    ('.' ∉ (['A'] : List Char)) ∧ '.' ∉ demoEmptyPB ∧ '.' ∉ demoEmptySB ∧
    b64decode demoEmptySB = .ok (hmacSha256
      (utf8Encode (AppConfig.mk demoSecret 600).jwt_secret)
      (utf8Encode (['A'] ++ '.' :: demoEmptyPB))) ∧
    b64decode demoEmptyPB = .ok (utf8Encode (String.toList "\x7b\x7d")) ∧
    parsePayload (utf8Encode (String.toList "\x7b\x7d")) = .ok [] ∧
    assocGet ([] : List (List Char × Int)) (String.toList "exp") = none ∧
    decodeToken ((['A'] ++ '.' :: demoEmptyPB) ++ '.' :: demoEmptySB) 0
      ⟨demoSecret, 600⟩ = .error .expired := by
  have hd1 : '.' ∉ (['A'] : List Char) := by decide
  have hd2 : '.' ∉ demoEmptyPB := by decide
  have hd3 : '.' ∉ demoEmptySB := by decide
  have hsig : b64decode demoEmptySB = .ok (hmacSha256
      (utf8Encode (AppConfig.mk demoSecret 600).jwt_secret)
      (utf8Encode (['A'] ++ '.' :: demoEmptyPB))) := by decide
  have hpb : b64decode demoEmptyPB =
      .ok (utf8Encode (String.toList "\x7b\x7d")) := by decide
  have hparse : parsePayload (utf8Encode (String.toList "\x7b\x7d")) =
      .ok [] := by decide
  have hexp : assocGet ([] : List (List Char × Int)) (String.toList "exp") =
      none := by decide
  exact ⟨hd1, hd2, hd3, hsig, hpb, hparse, hexp,
    claim9_missing_exp_rejected ['A'] demoEmptyPB demoEmptySB 0
      ⟨demoSecret, 600⟩ hd1 hd2 hd3 _ _ hsig hpb hparse hexp⟩

/-- C3 (amended): on a three-part token, flipping a byte of the signature
segment makes `decode_token` fail with the invalid-signature error whenever
the flipped segment still base64-decodes to bytes different from the
recomputed MAC; when the flipped segment fails base64 decoding, the decoder
fails with that base64 format error instead; and in every case the payload
is decoded or interpreted only after the signature segment has decoded to
exactly the recomputed MAC. -/
theorem claim3_flip_signature :
    (∀ (hB pB sB : List Char) (i : Nat) (c : Char) (now : Nat)
      (cfg : AppConfig) (bs : List Nat),
      '.' ∉ hB → '.' ∉ pB → '.' ∉ sB.set i c →
      b64decode (sB.set i c) = .ok bs →
      bs ≠ hmacSha256 (utf8Encode cfg.jwt_secret) (utf8Encode (hB ++ '.' :: pB)) →
      decodeToken ((hB ++ '.' :: pB) ++ '.' :: sB.set i c) now cfg =
        .error .invalidSignature) ∧
    (∀ (hB pB sB : List Char) (i : Nat) (c : Char) (now : Nat)
      (cfg : AppConfig) (e : B64Error),
      '.' ∉ hB → '.' ∉ pB → '.' ∉ sB.set i c →
      b64decode (sB.set i c) = .error e →
      decodeToken ((hB ++ '.' :: pB) ++ '.' :: sB.set i c) now cfg =
        .error (.sigDecodeError e)) ∧
    (∀ (token : List Char) (now : Nat) (cfg : AppConfig),
      decodeToken token now cfg ≠ .error .malformed →
      (∀ e, decodeToken token now cfg ≠ .error (.sigDecodeError e)) →
      decodeToken token now cfg ≠ .error .invalidSignature →
      ∃ hB pB sB, splitOnChar '.' token = [hB, pB, sB] ∧
        b64decode sB = .ok (hmacSha256 (utf8Encode cfg.jwt_secret)
          (utf8Encode (hB ++ '.' :: pB)))) := by
  refine ⟨?_, ?_, ?_⟩
  · intro hB pB sB i c now cfg bs hh hp hs hdec hne
    have e1 : (hB ++ '.' :: pB) ++ '.' :: sB.set i c =
        hB ++ '.' :: (pB ++ '.' :: sB.set i c) := by simp
    rw [decodeToken, e1, splitOnChar_three '.' hB pB _ hh hp hs]
    simp only [hdec]
    rw [if_neg (fun h => hne h.symm)]
  · intro hB pB sB i c now cfg e hh hp hs hdec
    have e1 : (hB ++ '.' :: pB) ++ '.' :: sB.set i c =
        hB ++ '.' :: (pB ++ '.' :: sB.set i c) := by simp
    rw [decodeToken, e1, splitOnChar_three '.' hB pB _ hh hp hs]
    simp only [hdec]
  · intro token now cfg hm hsd hinv
    rw [decodeToken] at hm hsd hinv
    rcases hsp : splitOnChar '.' token with _ | ⟨h1, _ | ⟨p1, _ | ⟨s1, _ | _⟩⟩⟩ <;>
      rw [hsp] at hm hsd hinv
    · exact absurd rfl hm
    · exact absurd rfl hm
    · exact absurd rfl hm
    · refine ⟨h1, p1, s1, rfl, ?_⟩
      simp only at hsd hinv
      rcases hdec : b64decode s1 with e | sig
      · rw [hdec] at hsd
        exact absurd rfl (hsd e)
      · rw [hdec] at hinv
        simp only at hinv
        by_cases heq : hmacSha256 (utf8Encode cfg.jwt_secret)
            (utf8Encode (h1 ++ '.' :: p1)) = sig
        · rw [heq]
        · rw [if_neg heq] at hinv
          exact absurd rfl hinv
    · exact absurd rfl hm

/-- Witness for C3: the first part at a flip of `"AA"` into `"BA"` (whose
decoding differs from the MAC), the second at a flip of `"AAA"` into
`"AA!"` (which no longer decodes), the third at the concrete correctly
signed token. -/
theorem claim3_witness :
    ('.' ∉ (['A'] : List Char)) ∧
    (String.toList "AA").set 0 'B' = String.toList "BA" ∧
    '.' ∉ (String.toList "AA").set 0 'B' ∧
    b64decode ((String.toList "AA").set 0 'B') = .ok [4] ∧
    [4] ≠ hmacSha256 (utf8Encode (AppConfig.mk demoSecret 600).jwt_secret)
      (utf8Encode (['A'] ++ '.' :: ['A'])) ∧
    decodeToken ((['A'] ++ '.' :: ['A']) ++ '.' :: (String.toList "AA").set 0 'B')
      0 ⟨demoSecret, 600⟩ = .error .invalidSignature ∧
    (String.toList "AAA").set 2 '!' = String.toList "AA!" ∧
    b64decode ((String.toList "AAA").set 2 '!') = .error .incorrectPadding ∧
    decodeToken ((['A'] ++ '.' :: ['A']) ++ '.' :: (String.toList "AAA").set 2 '!')
      0 ⟨demoSecret, 600⟩ = .error (.sigDecodeError .incorrectPadding) ∧
    decodeToken ((['A'] ++ '.' :: demoPB) ++ '.' :: demoSB) 5
        ⟨demoSecret, 600⟩ ≠ .error .malformed ∧
    (∃ hB pB sB,
      splitOnChar '.' ((['A'] ++ '.' :: demoPB) ++ '.' :: demoSB) = [hB, pB, sB] ∧
      b64decode sB = .ok (hmacSha256
        (utf8Encode (AppConfig.mk demoSecret 600).jwt_secret)
        (utf8Encode (hB ++ '.' :: pB)))) := by
  have hd1 : '.' ∉ (['A'] : List Char) := by decide
  have hs1 : '.' ∉ (String.toList "AA").set 0 'B' := by decide
  have hb1 : b64decode ((String.toList "AA").set 0 'B') = .ok [4] := by decide
  have hne : [4] ≠ hmacSha256 (utf8Encode (AppConfig.mk demoSecret 600).jwt_secret)
      (utf8Encode (['A'] ++ '.' :: ['A'])) := by decide
  have hs2 : '.' ∉ (String.toList "AAA").set 2 '!' := by decide
  have hb2 : b64decode ((String.toList "AAA").set 2 '!') =
      .error .incorrectPadding := by decide
  refine ⟨hd1, by decide, hs1, hb1, hne,
    claim3_flip_signature.1 ['A'] ['A'] (String.toList "AA") 0 'B' 0
      ⟨demoSecret, 600⟩ [4] hd1 hd1 hs1 hb1 hne,
    by decide, hb2,
    claim3_flip_signature.2.1 ['A'] ['A'] (String.toList "AAA") 2 '!' 0
      ⟨demoSecret, 600⟩ .incorrectPadding hd1 hd1 hs2 hb2,
    ?_, ?_⟩
  · decide
  · exact claim3_flip_signature.2.2
      ((['A'] ++ '.' :: demoPB) ++ '.' :: demoSB) 5 ⟨demoSecret, 600⟩
      (by decide) (by intro e; cases e <;> decide) (by decide)

/-- Counterexample for C3 as stated: `"A.A.AAA"` splits into exactly three
dot-separated parts, yet flipping the third byte of its signature segment
to `'!'` makes `decode_token` fail with the base64 `Incorrect padding`
error of `_b64decode`, not with the invalid-signature error. -/
theorem claim3_counterexample :
    splitOnChar '.' (String.toList "A.A.AAA") =
      [['A'], ['A'], String.toList "AAA"] ∧
    (String.toList "AAA").set 2 '!' = String.toList "AA!" ∧
    decodeToken (String.toList "A.A.AA!") 0 ⟨String.toList "k", 600⟩ =
      .error (.sigDecodeError .incorrectPadding) ∧
    decodeToken (String.toList "A.A.AA!") 0 ⟨String.toList "k", 600⟩ ≠
      .error .invalidSignature := by
  refine ⟨by decide, by decide, by decide, by decide⟩

/-- C4 (amended): `verify_password` returns `False` without raising when the
stored string does not split on `$` into exactly two fields; but when it
does split and either field fails URL-safe base64 decoding, the
`binascii.Error` escapes (the decode calls sit outside the `try`). -/
theorem claim4_verify_malformed :
    (∀ (pw stored : List Char), (splitOnChar '$' stored).length ≠ 2 →
      verifyPassword pw stored = .ok false) ∧
    (∀ (pw stored s1 s2 : List Char) (e : B64Error),
      splitOnChar '$' stored = [s1, s2] → b64decode s1 = .error e →
      verifyPassword pw stored = .error e) ∧
    (∀ (pw stored s1 s2 : List Char) (salt : List Nat) (e : B64Error),
      splitOnChar '$' stored = [s1, s2] → b64decode s1 = .ok salt →
      b64decode s2 = .error e → verifyPassword pw stored = .error e) := by
  refine ⟨?_, ?_, ?_⟩
  · intro pw stored hlen
    rw [verifyPassword]
    rcases hsp : splitOnChar '$' stored with _ | ⟨a, _ | ⟨b, _ | t⟩⟩ <;>
      rw [hsp] at hlen <;> simp at hlen ⊢
  · intro pw stored s1 s2 e hsp hdec
    rw [verifyPassword_two_fields pw stored s1 s2 hsp, verifyParts_err1 pw s1 s2 e hdec]
  · intro pw stored s1 s2 salt e hsp h1 hdec
    rw [verifyPassword_two_fields pw stored s1 s2 hsp,
      verifyParts_err2 pw s1 s2 salt e h1 hdec]

/-- Witness for C4: the amended behaviors at stored strings `""` (one
field), `"A$A"` (first field fails decoding) and `"AA$A"` (second field
fails decoding). -/
theorem claim4_witness :
    (splitOnChar '$' (String.toList "")).length ≠ 2 ∧
    verifyPassword (String.toList "x") (String.toList "") = .ok false ∧
    splitOnChar '$' (String.toList "A$A") = [['A'], ['A']] ∧
    b64decode ['A'] = .error .oneMore ∧
    verifyPassword (String.toList "x") (String.toList "A$A") =
      .error .oneMore ∧
    splitOnChar '$' (String.toList "AA$A") = [String.toList "AA", ['A']] ∧
    b64decode (String.toList "AA") = .ok [0] ∧
    verifyPassword (String.toList "x") (String.toList "AA$A") =
      .error .oneMore := by
  refine ⟨by decide, ?_, by decide, by decide, ?_, by decide, by decide, ?_⟩
  · exact claim4_verify_malformed.1 (String.toList "x") (String.toList "")
      (by decide)
  · exact claim4_verify_malformed.2.1 (String.toList "x") (String.toList "A$A")
      ['A'] ['A'] .oneMore (by decide) (by decide)
  · exact claim4_verify_malformed.2.2 (String.toList "x") (String.toList "AA$A")
      (String.toList "AA") ['A'] [0] .oneMore (by decide) (by decide) (by decide)

/-- Counterexample for C4 as stated: on the stored credential `"A$A"`, whose
fields are not valid URL-safe base64, `verify_password` does not return a
boolean — the `binascii.Error` of `_b64decode` (the "1 more than a multiple
of 4" error) escapes. -/
theorem claim4_counterexample :
    verifyPassword (String.toList "x") (String.toList "A$A") =
      .error .oneMore ∧
    ∀ b : Bool, verifyPassword (String.toList "x") (String.toList "A$A") ≠
      .ok b := by
  refine ⟨by decide, ?_⟩
  intro b
  cases b <;> decide

/-- C5: a failed login raises the same error — same exception class and
same message — whether no user exists under the email or the password fails
verification, so the caller cannot tell the two cases apart. -/
theorem claim5_login_error_uniform (db1 : Store) (e1 p1 : List Char)
    (now1 : Nat) (cfg1 : AppConfig) (db2 : Store) (e2 p2 : List Char)
    (now2 : Nat) (cfg2 : AppConfig) (row : UserRow)
    (h1 : getUserByEmail db1 e1 = none)
    (h2 : getUserByEmail db2 e2 = some row)
    (h3 : verifyPassword p2 row.password_hash = .ok false) :
    authenticateUser db1 e1 p1 now1 cfg1 =
      .error (.valueError "Invalid email or password") ∧
    authenticateUser db2 e2 p2 now2 cfg2 =
      .error (.valueError "Invalid email or password") ∧
    authenticateUser db1 e1 p1 now1 cfg1 = authenticateUser db2 e2 p2 now2 cfg2 := by
  have hu : authenticateUser db1 e1 p1 now1 cfg1 =
      .error (.valueError "Invalid email or password") := by
    rw [authenticateUser, h1]
  have hw : authenticateUser db2 e2 p2 now2 cfg2 =
      .error (.valueError "Invalid email or password") := by
    rw [authenticateUser, h2]
    simp only [h3]
    rfl
  exact ⟨hu, hw, hu.trans hw.symm⟩

/-- The store the C5 witness logs into: one user whose stored credential is
the empty string (which verifies as false for any password). -/
def demoRow : UserRow :=
  ⟨1, String.toList "a@b.c", [], none, String.toList "2024-01-01T00:00:00"⟩

def demoStore : Store := ⟨2, [demoRow]⟩

/-- Witness for C5: an unknown email against the empty store and a wrong
password against the one-user store produce the same error. -/
theorem claim5_witness :
    getUserByEmail ⟨1, []⟩ (String.toList "a@b.c") = none ∧
    getUserByEmail demoStore (String.toList "a@b.c") = some demoRow ∧
    verifyPassword (String.toList "pw") demoRow.password_hash = .ok false ∧
    (authenticateUser ⟨1, []⟩ (String.toList "a@b.c") (String.toList "pw") 0
        ⟨demoSecret, 600⟩ =
      .error (.valueError "Invalid email or password") ∧
    authenticateUser demoStore (String.toList "a@b.c") (String.toList "pw") 0
        ⟨demoSecret, 600⟩ =
      .error (.valueError "Invalid email or password") ∧
    authenticateUser ⟨1, []⟩ (String.toList "a@b.c") (String.toList "pw") 0
        ⟨demoSecret, 600⟩ =
      authenticateUser demoStore (String.toList "a@b.c") (String.toList "pw") 0
        ⟨demoSecret, 600⟩) :=
  ⟨by decide, by decide, by decide,
   claim5_login_error_uniform ⟨1, []⟩ (String.toList "a@b.c")
     (String.toList "pw") 0 ⟨demoSecret, 600⟩ demoStore
     (String.toList "a@b.c") (String.toList "pw") 0 ⟨demoSecret, 600⟩ demoRow
     (by decide) (by decide) (by decide)⟩

/-- Hashing then verifying succeeds for any password and salt. -/
theorem verifyPassword_hashPassword (p : List Char) (salt : List Nat)
    (hs : ∀ x ∈ salt, x < 256) :
    verifyPassword p (hashPassword p salt) = .ok true := by
  have hkey := pbkdf2_lt (utf8Encode p) salt 120000
  have hsp : splitOnChar '$' (hashPassword p salt) =
      [b64encode salt, b64encode (pbkdf2HmacSha256 (utf8Encode p) salt 120000)] := by
    rw [hashPassword, splitOnChar_append '$' _ _ (b64encode_no_dollar salt hs),
      splitOnChar_of_not_mem '$' _ (b64encode_no_dollar _ hkey)]
  rw [verifyPassword_two_fields p _ _ _ hsp,
    verifyParts_ok p _ _ salt _ (b64decode_b64encode salt hs)
      (b64decode_b64encode _ hkey), beq_self_eq_true]

/-- The stored credential determines the salt: different salts give
different credentials. -/
theorem hashPassword_salt_injective (p : List Char) (s1 s2 : List Nat)
    (hs1 : ∀ x ∈ s1, x < 256) (hs2 : ∀ x ∈ s2, x < 256)
    (hne : s1 ≠ s2) : hashPassword p s1 ≠ hashPassword p s2 := by
  intro heq
  have hk1 := pbkdf2_lt (utf8Encode p) s1 120000
  have hk2 := pbkdf2_lt (utf8Encode p) s2 120000
  have h1 : splitOnChar '$' (hashPassword p s1) =
      [b64encode s1, b64encode (pbkdf2HmacSha256 (utf8Encode p) s1 120000)] := by
    rw [hashPassword, splitOnChar_append '$' _ _ (b64encode_no_dollar s1 hs1),
      splitOnChar_of_not_mem '$' _ (b64encode_no_dollar _ hk1)]
  have h2 : splitOnChar '$' (hashPassword p s2) =
      [b64encode s2, b64encode (pbkdf2HmacSha256 (utf8Encode p) s2 120000)] := by
    rw [hashPassword, splitOnChar_append '$' _ _ (b64encode_no_dollar s2 hs2),
      splitOnChar_of_not_mem '$' _ (b64encode_no_dollar _ hk2)]
  rw [heq, h2] at h1
  have hsalt : b64encode s2 = b64encode s1 := (List.cons.injEq _ _ _ _ ▸ h1).1
  exact hne (b64encode_injective s2 s1 hs2 hs1 hsalt).symm

/-- C6: verifying a password against its own hash succeeds, and hashing the
same password with two different salts (what salt randomization produces)
yields different credential strings, both of which still verify. -/
theorem claim6_hash_roundtrip (p : List Char) (s1 s2 : List Nat)
    (hs1 : ∀ x ∈ s1, x < 256) (hs2 : ∀ x ∈ s2, x < 256) (hne : s1 ≠ s2) :
    verifyPassword p (hashPassword p s1) = .ok true ∧
    verifyPassword p (hashPassword p s2) = .ok true ∧
    hashPassword p s1 ≠ hashPassword p s2 :=
  ⟨verifyPassword_hashPassword p s1 hs1, verifyPassword_hashPassword p s2 hs2,
   hashPassword_salt_injective p s1 s2 hs1 hs2 hne⟩

/-- Witness for C6 at password `"pw"` and the 16-byte salts `0…0` and
`1 0…0`. -/
theorem claim6_witness :
    (∀ x ∈ List.replicate 16 0, x < 256) ∧
    (∀ x ∈ 1 :: List.replicate 15 0, x < 256) ∧
    List.replicate 16 0 ≠ 1 :: List.replicate 15 0 ∧
    (verifyPassword (String.toList "pw")
        (hashPassword (String.toList "pw") (List.replicate 16 0)) = .ok true ∧
    verifyPassword (String.toList "pw")
        (hashPassword (String.toList "pw") (1 :: List.replicate 15 0)) = .ok true ∧
    hashPassword (String.toList "pw") (List.replicate 16 0) ≠
      hashPassword (String.toList "pw") (1 :: List.replicate 15 0)) :=
  ⟨by decide, by decide, by decide,
   claim6_hash_roundtrip (String.toList "pw") (List.replicate 16 0)
     (1 :: List.replicate 15 0) (by decide) (by decide) (by decide)⟩

/-- A character of the base64url alphabet. -/
def isB64Char (c : Char) : Bool := (b64val c).isSome

/-- One alphabet character advances the quad position cyclically; the
leftover bits, pad count and output so far become some new values. -/
theorem a2bLoop_alphabet_step (c : Char) (v : Nat) (hv : b64val c = some v)
    (cs : List Char) (q left pads : Nat) (acc : List Nat) (hq : q < 4) :
    ∃ left2 acc2, a2bLoop (c :: cs) q left pads acc =
      a2bLoop cs ((q + 1) % 4) left2 0 acc2 := by
  have hne : ¬ c = '=' := by
    intro h
    rw [h] at hv
    have hnone : b64val '=' = none := by decide
    rw [hnone] at hv
    exact Option.noConfusion hv
  interval_cases q
  · exact ⟨v, acc, by simp only [a2bLoop, if_neg hne, hv]⟩
  · exact ⟨v % 16, acc ++ [left * 4 + v / 16], by simp only [a2bLoop, if_neg hne, hv]⟩
  · exact ⟨v % 4, acc ++ [left * 16 + v / 4], by simp only [a2bLoop, if_neg hne, hv]⟩
  · exact ⟨0, acc ++ [left * 64 + v], by simp only [a2bLoop, if_neg hne, hv]⟩

/-- Consuming a run of alphabet characters advances the quad position by
its length, modulo 4. -/
theorem a2bLoop_alphabet_run : ∀ (s : List Char),
    (∀ c ∈ s, isB64Char c = true) → ∀ (t : List Char)
    (q left pads : Nat) (acc : List Nat), q < 4 →
    ∃ left2 pads2 acc2, a2bLoop (s ++ t) q left pads acc =
      a2bLoop t ((q + s.length) % 4) left2 pads2 acc2
  | [], _, t, q, left, pads, acc, hq => by
    refine ⟨left, pads, acc, ?_⟩
    simp [Nat.mod_eq_of_lt hq]
  | c :: s, hs, t, q, left, pads, acc, hq => by
    have hc : (b64val c).isSome = true := hs c (by simp)
    obtain ⟨v, hv⟩ := Option.isSome_iff_exists.mp hc
    obtain ⟨left2, acc2, hstep⟩ := a2bLoop_alphabet_step c v hv (s ++ t) q left pads acc hq
    obtain ⟨left3, pads3, acc3, hrun⟩ := a2bLoop_alphabet_run s
      (fun a ha => hs a (by simp [ha])) t ((q + 1) % 4) left2 0 acc2
      (Nat.mod_lt _ (by omega))
    refine ⟨left3, pads3, acc3, ?_⟩
    rw [List.cons_append, hstep, hrun]
    congr 1
    rw [List.length_cons]
    omega

/-- A base64url-alphabet input of length 1 mod 4 is rejected by
`_b64decode` with the "1 more than a multiple of 4" error: the three
re-appended `=` stand at quad position 1 and are ignored, and the leftover
quad of one data character raises. -/
theorem b64decode_alphabet_one_mod4 (s : List Char)
    (hs : ∀ c ∈ s, isB64Char c = true) (hlen : s.length % 4 = 1) :
    b64decode s = .error .oneMore := by
  rw [b64decode]
  have hpl : padLen s.length = 3 := by
    rw [padLen, hlen]
  rw [hpl]
  obtain ⟨left2, pads2, acc2, hrun⟩ :=
    a2bLoop_alphabet_run s hs (List.replicate 3 '=') 0 0 0 [] (by omega)
  rw [hrun]
  have hq : (0 + s.length) % 4 = 1 := by omega
  rw [hq]
  rw [show List.replicate 3 '=' = '=' :: '=' :: '=' :: [] from rfl]
  rw [a2bLoop_pad_skip _ 1 _ _ _ (by omega), a2bLoop_pad_skip _ 1 _ _ _ (by omega),
    a2bLoop_pad_skip _ 1 _ _ _ (by omega)]
  rfl

/-- C8 (amended): base64url decoding inverts encoding for every byte string
(the empty string and every length remainder mod 4 included); and an input
consisting of base64url alphabet characters whose length is 1 mod 4 — a
length encoding never produces — is rejected with a decode-time format
error.  (For inputs with foreign characters the claim fails: the decoder
silently discards them, see the counterexample.) -/
theorem claim8_b64_roundtrip :
    (∀ b : List Nat, (∀ x ∈ b, x < 256) → b64decode (b64encode b) = .ok b) ∧
    (∀ s : List Char, (∀ c ∈ s, isB64Char c = true) → s.length % 4 = 1 →
      b64decode s = .error .oneMore) :=
  ⟨b64decode_b64encode, b64decode_alphabet_one_mod4⟩

/-- Witness for C8: the round trip at byte strings of each length residue
and the 1-mod-4 rejection at `"AAAAA"`. -/
theorem claim8_witness :
    ((∀ x ∈ ([] : List Nat), x < 256) ∧ b64decode (b64encode []) = .ok []) ∧
    ((∀ x ∈ [251], x < 256) ∧ b64decode (b64encode [251]) = .ok [251]) ∧
    ((∀ x ∈ [1, 2], x < 256) ∧ b64decode (b64encode [1, 2]) = .ok [1, 2]) ∧
    ((∀ x ∈ [1, 2, 3], x < 256) ∧ b64decode (b64encode [1, 2, 3]) = .ok [1, 2, 3]) ∧
    ((∀ x ∈ [1, 2, 3, 4], x < 256) ∧
      b64decode (b64encode [1, 2, 3, 4]) = .ok [1, 2, 3, 4]) ∧
    ((∀ c ∈ String.toList "AAAAA", isB64Char c = true) ∧
      (String.toList "AAAAA").length % 4 = 1 ∧
      b64decode (String.toList "AAAAA") = .error .oneMore) :=
  ⟨⟨by decide, claim8_b64_roundtrip.1 [] (by decide)⟩,
   ⟨by decide, claim8_b64_roundtrip.1 [251] (by decide)⟩,
   ⟨by decide, claim8_b64_roundtrip.1 [1, 2] (by decide)⟩,
   ⟨by decide, claim8_b64_roundtrip.1 [1, 2, 3] (by decide)⟩,
   ⟨by decide, claim8_b64_roundtrip.1 [1, 2, 3, 4] (by decide)⟩,
   ⟨by decide, by decide,
    claim8_b64_roundtrip.2 (String.toList "AAAAA") (by decide) (by decide)⟩⟩

/-- Counterexample for C8 as stated: the decode input `"!AAAA"` has length
1 mod 4, yet `_b64decode` accepts it (the `!` is silently discarded), so a
1-mod-4 input is not always a decode-time format error. -/
theorem claim8_counterexample :
    (String.toList "!AAAA").length % 4 = 1 ∧
    b64decode (String.toList "!AAAA") = .ok [0, 0, 0] ∧
    ∀ e : B64Error, b64decode (String.toList "!AAAA") ≠ .error e := by
  refine ⟨by decide, by decide, ?_⟩
  intro e
  cases e <;> decide

/-- C10 (implicit): whenever `register_user` returns an error — invalid
email shape or already-registered email — the store is unchanged: no user
row is created by a failed registration. -/
theorem claim10_register_error_no_create (db : Store) (email password : List Char)
    (displayName : Option (List Char)) (salt : List Nat) (createdAt : List Char)
    (now : Nat) (cfg : AppConfig) (err : PyError)
    (h : (registerUser db email password displayName salt createdAt now cfg).1 =
      .error err) :
    (registerUser db email password displayName salt createdAt now cfg).2 = db := by
  simp only [registerUser] at h ⊢
  by_cases h1 : emailRegexMatch email = false
  · rw [if_pos h1]
  · rw [if_neg h1] at h ⊢
    by_cases h2 : (getUserByEmail db email).isSome
    · rw [if_pos h2]
    · rw [if_neg h2] at h ⊢
      have hcr : createUser db email (hashPassword password salt) displayName
          createdAt = (db.nextId, ⟨db.nextId + 1, db.rows ++ [⟨db.nextId, email,
            hashPassword password salt, displayName, createdAt⟩]⟩) := rfl
      have hfind : (getUserById
          (createUser db email (hashPassword password salt) displayName createdAt).2
          (createUser db email (hashPassword password salt) displayName createdAt).1).isSome := by
        simp only [hcr, getUserById, List.find?_isSome]
        exact ⟨⟨db.nextId, email, hashPassword password salt, displayName,
          createdAt⟩, by simp, by simp⟩
      rcases hres : getUserById
          (createUser db email (hashPassword password salt) displayName createdAt).2
          (createUser db email (hashPassword password salt) displayName createdAt).1
        with _ | row
      · rw [hres] at hfind
        simp at hfind
      · rw [hres] at h
        simp at h

/-- Witness for C10: registering the badly shaped email `"invalid"` against
a store errs and leaves the store exactly as it was. -/
theorem claim10_witness :
    (registerUser ⟨1, []⟩ (String.toList "invalid") (String.toList "pw") none
      [] [] 0 ⟨demoSecret, 600⟩).1 = .error (.valueError "Invalid email address") ∧
    (registerUser ⟨1, []⟩ (String.toList "invalid") (String.toList "pw") none
      [] [] 0 ⟨demoSecret, 600⟩).2 = ⟨1, []⟩ :=
  ⟨by decide,
   claim10_register_error_no_create ⟨1, []⟩ (String.toList "invalid")
     (String.toList "pw") none [] [] 0 ⟨demoSecret, 600⟩
     (.valueError "Invalid email address") (by decide)⟩

/-- The email shape C7 claims the validator accepts, stated literally from
the spec's words: ASCII only, no whitespace, exactly one `@`, at least one
`.` in the domain portion, and all parts non-empty. -/
def claimedEmailShape (s : List Char) : Prop :=
  (∀ c ∈ s, c.toNat < 128) ∧ (∀ c ∈ s, pySpace c = false) ∧
  s.count '@' = 1 ∧
  ∃ L D : List Char, s = L ++ '@' :: D ∧ L ≠ [] ∧ D ≠ [] ∧ '.' ∈ D ∧
    ∀ part ∈ splitOnChar '.' D, part ≠ []

/-- The shape `EMAIL_REGEX` actually accepts (the amended claim): a
non-empty local part and a domain, both free of `@` and whitespace but
otherwise arbitrary Unicode, the domain containing a dot at neither its
first nor its last position, the whole optionally followed by one final
newline (which Python's `$` anchor tolerates). -/
def amendedEmailShape (s : List Char) : Prop :=
  ∃ L D : List Char,
    (s = L ++ '@' :: D ∨ s = (L ++ '@' :: D) ++ ['\n']) ∧ L ≠ [] ∧
    (∀ c ∈ L, ¬ c = '@' ∧ pySpace c = false) ∧
    (∀ c ∈ D, ¬ c = '@' ∧ pySpace c = false) ∧
    ∃ i : Nat, 0 < i ∧ i + 1 < D.length ∧ D[i]? = some '.'

theorem emailCharOk_iff (c : Char) :
    emailCharOk c = true ↔ (¬ c = '@' ∧ pySpace c = false) := by
  rw [emailCharOk]
  cases hs : pySpace c <;> by_cases hc : c = '@' <;> simp [hc, hs]

theorem dotOk_iff (d : List Char) :
    dotOk d = true ↔ ∃ i : Nat, 0 < i ∧ i + 1 < d.length ∧ d[i]? = some '.' := by
  rw [dotOk, List.elem_iff]
  constructor
  · intro hmem
    obtain ⟨j, hj, hget⟩ := List.mem_iff_getElem.mp hmem
    have hq : ((d.drop 1).dropLast)[j]? = some '.' := by
      rw [List.getElem?_eq_getElem hj, hget]
    rw [List.getElem?_dropLast] at hq
    have hjlt : j < (d.drop 1).length - 1 := by
      by_contra hge
      rw [if_neg hge] at hq
      exact Option.noConfusion hq
    rw [if_pos hjlt, List.getElem?_drop] at hq
    have hlen : (d.drop 1).length = d.length - 1 := by simp
    exact ⟨1 + j, by omega, by omega, hq⟩
  · intro ⟨i, hi0, hilen, hget⟩
    have hlen : (d.drop 1).length = d.length - 1 := by simp
    have hjlt : i - 1 < (d.drop 1).length - 1 := by omega
    have hq : ((d.drop 1).dropLast)[i - 1]? = some '.' := by
      rw [List.getElem?_dropLast, if_pos hjlt, List.getElem?_drop]
      have : 1 + (i - 1) = i := by omega
      rw [this, hget]
    exact List.mem_iff_getElem?.mpr ⟨i - 1, hq⟩

/-- Splitting at the first failing element of an all-passing prefix. -/
theorem takeWhile_dropWhile_middle (p : Char → Bool) (L : List Char)
    (x : Char) (D : List Char) (hL : ∀ c ∈ L, p c = true) (hx : p x = false) :
    (L ++ x :: D).takeWhile p = L ∧ (L ++ x :: D).dropWhile p = x :: D := by
  induction L with
  | nil => simp [List.takeWhile, List.dropWhile, hx]
  | cons c L ih =>
    have hc : p c = true := hL c (by simp)
    obtain ⟨ht, hd⟩ := ih (fun a ha => hL a (by simp [ha]))
    constructor
    · rw [List.cons_append, List.takeWhile_cons, hc]
      simp [ht]
    · rw [List.cons_append, List.dropWhile_cons, hc]
      simpa using hd

theorem emailCore_iff (t : List Char) : emailCore t = true ↔
    ∃ L D : List Char, t = L ++ '@' :: D ∧ L ≠ [] ∧
      (∀ c ∈ L, ¬ c = '@' ∧ pySpace c = false) ∧
      (∀ c ∈ D, ¬ c = '@' ∧ pySpace c = false) ∧
      ∃ i : Nat, 0 < i ∧ i + 1 < D.length ∧ D[i]? = some '.' := by
  constructor
  · intro h
    rw [emailCore] at h
    split at h
    case h_2 => exact absurd h (by simp)
    case h_1 _ d heq =>
      simp only [Bool.and_eq_true] at h
      obtain ⟨⟨⟨hne, hall⟩, hdall⟩, hdot⟩ := h
      refine ⟨t.takeWhile (fun c => !(decide (c = '@'))), d, ?_, ?_, ?_, ?_, ?_⟩
      · conv_lhs => rw [← List.takeWhile_append_dropWhile
          (fun c => !(decide (c = '@'))) t]
        rw [heq]
      · intro habs
        rw [habs] at hne
        exact absurd hne (by decide)
      · intro c hc
        exact (emailCharOk_iff c).mp (List.all_eq_true.mp hall c hc)
      · intro c hc
        exact (emailCharOk_iff c).mp (List.all_eq_true.mp hdall c hc)
      · exact (dotOk_iff d).mp hdot
  · intro ⟨L, D, ht, hL, hLc, hDc, hdot⟩
    subst ht
    have hp : ∀ c ∈ L, (fun c => !(decide (c = '@'))) c = true := by
      intro c hc
      simp [(hLc c hc).1]
    have hx : (fun c => !(decide (c = '@'))) '@' = false := by decide
    obtain ⟨htw, hdw⟩ := takeWhile_dropWhile_middle _ L '@' D hp hx
    rw [emailCore]
    rw [htw, hdw]
    simp only [Bool.and_eq_true]
    refine ⟨⟨⟨?_, ?_⟩, ?_⟩, ?_⟩
    · simpa using hL
    · rw [List.all_eq_true]
      intro c hc
      exact (emailCharOk_iff c).mpr (hLc c hc)
    · rw [List.all_eq_true]
      intro c hc
      exact (emailCharOk_iff c).mpr (hDc c hc)
    · exact (dotOk_iff D).mpr hdot

theorem emailRegexMatch_iff (s : List Char) :
    emailRegexMatch s = true ↔ amendedEmailShape s := by
  rw [emailRegexMatch, Bool.or_eq_true, Bool.and_eq_true]
  constructor
  · rintro (hcore | ⟨hlast, hcore⟩)
    · obtain ⟨L, D, ht, hL, hLc, hDc, hdot⟩ := (emailCore_iff s).mp hcore
      exact ⟨L, D, Or.inl ht, hL, hLc, hDc, hdot⟩
    · have hlast2 : s.getLast? = some '\n' := of_decide_eq_true hlast
      have hne : s ≠ [] := by
        intro habs
        rw [habs] at hlast2
        exact Option.noConfusion hlast2
      obtain ⟨L, D, ht, hL, hLc, hDc, hdot⟩ := (emailCore_iff s.dropLast).mp hcore
      refine ⟨L, D, Or.inr ?_, hL, hLc, hDc, hdot⟩
      have hglast : s.getLast hne = '\n' := by
        have := List.getLast?_eq_getLast s hne
        rw [hlast2] at this
        exact (Option.some.injEq _ _ ▸ this).symm
      conv_lhs => rw [← List.dropLast_append_getLast hne]
      rw [ht, hglast]
  · rintro ⟨L, D, ht | ht, hL, hLc, hDc, hdot⟩
    · left
      rw [ht]
      exact (emailCore_iff _).mpr ⟨L, D, rfl, hL, hLc, hDc, hdot⟩
    · right
      subst ht
      constructor
      · rw [List.getLast?_concat]
        decide
      · rw [List.dropLast_concat]
        exact (emailCore_iff _).mpr ⟨L, D, rfl, hL, hLc, hDc, hdot⟩

/-- C7 (amended): `validate_email` accepts exactly the strings of the shape
`EMAIL_REGEX` encodes: a non-empty `@`-free, whitespace-free local part,
one `@`, a domain free of `@` and whitespace with a `.` strictly inside it
— with arbitrary (not only ASCII) characters otherwise, and optionally one
trailing newline, which the `$` anchor tolerates. -/
theorem claim7_email_validation (s : List Char) :
    validateEmail s = .ok s ↔ amendedEmailShape s := by
  constructor
  · intro hok
    by_cases h : emailRegexMatch s
    · exact (emailRegexMatch_iff s).mp h
    · rw [validateEmail, if_neg h] at hok
      exact Except.noConfusion hok
  · intro ha
    rw [validateEmail, if_pos ((emailRegexMatch_iff s).mpr ha)]

/-- Counterexample for C7 as stated: the non-ASCII address `"é@b.c"` is
accepted by `validate_email`, though the claimed shape demands ASCII
only. -/
theorem claim7_counterexample :
    emailRegexMatch (String.toList "é@b.c") = true ∧
    validateEmail (String.toList "é@b.c") = .ok (String.toList "é@b.c") ∧
    ¬ claimedEmailShape (String.toList "é@b.c") := by
  refine ⟨by decide, by decide, fun h => ?_⟩
  exact absurd (h.1 'é' (by decide)) (by decide)

end Jmail
